import Mathlib

/-! NS2009 resistive touch controller driver (`src/ns2009.c`)

A shallow embedding of the driver's calibration transform and orientation
controller, followed by the theorems that settle the specification's claims.

Conventions of the embedding
* `u16` / `uint8_t` values are `Nat`, reduced `% 65536` / `% 256` where the C
  code stores into such an object after arithmetic;
* `int` values are `Int`;
* `float` is modelled exactly as IEEE-754 binary32 (round to nearest, ties to
  even) by the type `float` below; expressions of type `float` are evaluated
  in `float` (the target, an RP2040, has `FLT_EVAL_METHOD == 0`);
* an operation whose behaviour is undefined in C (a `float` to `u16`
  conversion whose integral part is not representable, a call through a null
  function pointer) yields `none`;
* the register bus and the GPIO level are stub functions passed as arguments;
* the global `g_ns2009_data` is passed explicitly and returned by the
  functions that mutate it;
* `ns2009.h` and `ili9488.h` are not among the sources: the flag bits of
  `ns2009_direction_t` and the display resolution are parameters.
-/

/-! ## Binary32 arithmetic -/

/-- Auxiliary loop of `bitlen`, with fuel. -/
def bitlenAux : Nat → Nat → Nat
  | 0, _ => 0
  | fuel + 1, n => if n = 0 then 0 else bitlenAux fuel (n / 2) + 1

/-- Number of binary digits of `n` (`0` for `0`). -/
def bitlen (n : Nat) : Nat := bitlenAux n n

/-- A binary32 datum. `finite s m e` denotes `(-1)^s * m * 2^e`; every such
triple is given its value, and the operations below return the binary32 rounding
of the exact result on the denoted values. -/
inductive float
  | finite (sign : Bool) (m : Nat) (e : Int)
  | inf (sign : Bool)
  | nan
deriving DecidableEq

namespace float

/-- Drop the low `shift` bits of `m`, rounding to nearest with ties to even. With
`sticky` the dropped part is known to be followed by further non-zero bits, so an
apparent tie rounds up. -/
def roundShift (m shift : Nat) (sticky : Bool) : Nat :=
  let q := m / 2 ^ shift
  let r := m % 2 ^ shift
  let half := 2 ^ (shift - 1)
  if half < r ∨ (r = half ∧ (sticky = true ∨ q % 2 = 1)) then q + 1 else q

/-- The datum for magnitude `m * 2^e`: infinity once the magnitude reaches `2^128`,
that is, for `m ≠ 0`, once `bitlen m + e` exceeds 128. -/
def pack (sign : Bool) (m : Nat) (e : Int) : float :=
  if m ≠ 0 ∧ (bitlen m : Int) + e > 128 then inf sign else finite sign m e

/-- Round the exact magnitude `(m + δ) * 2^e` to binary32, to nearest with ties
to even, where `δ = 0` when `sticky` is false and `0 < δ < 1` when it is true
(callers pass `sticky = true` only with `2^25 ≤ m`). The significand has 24
bits; the least exponent is `-149` (subnormal numbers); a magnitude that
rounds to `2^128` or more overflows to infinity. -/
def round (sign : Bool) (m : Nat) (e : Int) (sticky : Bool) : float :=
  let e' : Int := max (e + (bitlen m : Int) - 24) (-149)
  if e' ≤ e then pack sign m e
  else pack sign (roundShift m (e' - e).toNat sticky) e'

/-- Conversion `(float) n` of an `int`. -/
def ofInt (n : Int) : float := round (decide (n < 0)) n.natAbs 0 false

/-- Binary32 multiplication. -/
def mul : float → float → float
  | nan, _ => nan
  | _, nan => nan
  | inf s, inf t => inf (xor s t)
  | inf s, finite t n _ => if n = 0 then nan else inf (xor s t)
  | finite s m _, inf t => if m = 0 then nan else inf (xor s t)
  | finite s m e, finite t n f => round (xor s t) (m * n) (e + f) false

/-- Binary32 division. The quotient of the significands is computed with at
least 26 significant bits and a sticky bit for the remainder, then rounded. -/
def div : float → float → float
  | nan, _ => nan
  | _, nan => nan
  | inf _, inf _ => nan
  | inf s, finite t _ _ => inf (xor s t)
  | finite s _ _, inf t => finite (xor s t) 0 0
  | finite s m e, finite t n f =>
    if n = 0 then (if m = 0 then nan else inf (xor s t))
    else
      let k := bitlen n + 26
      round (xor s t) ((m * 2 ^ k) / n) (e - f - (k : Int)) (decide ((m * 2 ^ k) % n ≠ 0))

/-- Integral part of the magnitude of a finite value. -/
def truncMag (m : Nat) (e : Int) : Nat :=
  if 0 ≤ e then m * 2 ^ e.toNat else m / 2 ^ (-e).toNat

/-- Conversion `(u16) x`: the fractional part is discarded; `none` when the
integral part is not representable in 16 bits (undefined behaviour in C), as
for infinities and NaN. -/
def toU16 : float → Option Nat
  | finite s m e =>
    let t := truncMag m e
    if s = true ∧ t ≠ 0 then none
    else if t < 65536 then some t else none
  | inf _ => none
  | nan => none

/-- The rational number a finite binary32 datum denotes. -/
def toRat : float → Option ℚ
  | finite s m e => some ((if s then -1 else 1) * (m : ℚ) * (2 : ℚ) ^ e)
  | inf _ => none
  | nan => none

end float

/-! ## Data model -/

/-- Values of `ns2009_res_t`, the sample width of the controller. The only value
the driver ever stores is `NS2009_RESOLUTION_8BIT`. -/
inductive ns2009_res_t
  | NS2009_RESOLUTION_8BIT
  | NS2009_RESOLUTION_12BIT
deriving DecidableEq

/-- Numeric value of the enumerator. -/
def ns2009_res_t.toNat : ns2009_res_t → Nat
  | .NS2009_RESOLUTION_8BIT => 8
  | .NS2009_RESOLUTION_12BIT => 12

/-- The flag bits of `ns2009_direction_t`. They are declared in `ns2009.h`, which
is not part of the sources at hand, so the embedding takes them as a parameter. -/
structure ns2009_dir_bits where
  NS2009_DIR_INVERT_X : Nat
  NS2009_DIR_INVERT_Y : Nat
  NS2009_DIR_SWITCH_XY : Nat
deriving DecidableEq

/-- The two functions a `read_x` / `read_y` pointer of `struct ns2009_data` can hold. -/
inductive ns2009_read_fn
  | __ns2009_read_x
  | __ns2009_read_y
deriving DecidableEq

/-- The anonymous `i2c` member of `struct ns2009_data`. -/
structure ns2009_i2c where
  addr : Nat
  master : Nat
  speed : Nat
  scl_pin : Nat
  sda_pin : Nat
deriving DecidableEq

/-- The driver state `struct ns2009_data`. A null function pointer is `none`. -/
structure ns2009_data where
  i2c : ns2009_i2c
  irq_pin : Nat
  tft_x_res : Nat
  tft_y_res : Nat
  rtp_x_res : Nat
  rtp_y_res : Nat
  rtp_x_width : Nat
  rtp_y_width : Nat
  rtp_x_offs : Int
  rtp_y_offs : Int
  rtp_x_sc : float
  rtp_y_sc : float
  res : ns2009_res_t
  dir : Nat
  invert_x : Bool
  invert_y : Bool
  switch_xy : Bool
  read_x : Option ns2009_read_fn
  read_y : Option ns2009_read_fn
deriving DecidableEq

def NS2009_ADDR : Nat := 0x48
def NS2009_PIN_SCL : Nat := 27
def NS2009_PIN_SDA : Nat := 26
def NS2009_PIN_IRQ : Nat := 21
def NS2009_CMD_READ_X : Nat := 0xC0
def NS2009_CMD_READ_Y : Nat := 0xD0

/-- Identifier standing for the SDK's `i2c1` bus instance. -/
def i2c1 : Nat := 1

/-! ## Register access and readers -/

/-- `ns2009_read_reg`: one byte read back for command `reg` from the stub bus. -/
def ns2009_read_reg (bus : Nat → Nat) (reg : Nat) : Nat := bus reg % 256

/-- Store of an `int` value into a `u16` object. -/
def to_u16 (n : Int) : Nat := (n % 65536).toNat

/-- Value of `this_x` before the offset is added (lines 111-114 of the X reader):
`int` arithmetic on the promoted operands, stored into the `u16`. -/
def read_x_base (priv : ns2009_data) (val : Nat) : Nat :=
  if priv.invert_x then
    to_u16 ((priv.tft_x_res : Int) - ((val : Int) * (priv.tft_x_res : Int)) / (1 <<< priv.res.toNat : Nat))
  else
    to_u16 (((val : Int) * (priv.tft_x_res : Int)) / (1 <<< priv.res.toNat : Nat))

/-- Value of `this_x` after `this_x += priv->rtp_x_offs` (line 117): the `int` sum
stored back into the `u16`. (A 32-bit wrap of the sum would not change the stored
value, since `65536` divides `2^32`.) -/
def read_x_offs (priv : ns2009_data) (val : Nat) : Nat :=
  to_u16 ((read_x_base priv val : Int) + priv.rtp_x_offs)

/-- `__ns2009_read_x`: the physical X channel. `this_x *= priv->rtp_x_sc` multiplies
in `float` and converts the product back to `u16`. -/
def __ns2009_read_x (priv : ns2009_data) (bus : Nat → Nat) : Option Nat :=
  let val := ns2009_read_reg bus NS2009_CMD_READ_X
  let this_x := read_x_offs priv val
  float.toU16 (float.mul (float.ofInt (this_x : Int)) priv.rtp_x_sc)

/-- Value of `this_y` before the offset is added (lines 135-138 of the Y reader). -/
def read_y_base (priv : ns2009_data) (val : Nat) : Nat :=
  if priv.invert_y then
    to_u16 ((priv.tft_y_res : Int) - ((val : Int) * (priv.tft_y_res : Int)) / (1 <<< priv.res.toNat : Nat))
  else
    to_u16 (((val : Int) * (priv.tft_y_res : Int)) / (1 <<< priv.res.toNat : Nat))

/-- Value of `this_y` after `this_y += priv->rtp_y_offs` (line 141). -/
def read_y_offs (priv : ns2009_data) (val : Nat) : Nat :=
  to_u16 ((read_y_base priv val : Int) + priv.rtp_y_offs)

/-- `__ns2009_read_y`: the physical Y channel. -/
def __ns2009_read_y (priv : ns2009_data) (bus : Nat → Nat) : Option Nat :=
  let val := ns2009_read_reg bus NS2009_CMD_READ_Y
  let this_y := read_y_offs priv val
  float.toU16 (float.mul (float.ofInt (this_y : Int)) priv.rtp_y_sc)

/-- Call through a stored function pointer. -/
def call_read_fn (f : ns2009_read_fn) (priv : ns2009_data) (bus : Nat → Nat) : Option Nat :=
  match f with
  | .__ns2009_read_x => __ns2009_read_x priv bus
  | .__ns2009_read_y => __ns2009_read_y priv bus

/-- `ns2009_read_x`: the logical X read, through `g_ns2009_data.read_x`. -/
def ns2009_read_x (g : ns2009_data) (bus : Nat → Nat) : Option Nat :=
  match g.read_x with
  | none => none
  | some f => call_read_fn f g bus

/-- `ns2009_read_y`: the logical Y read, through `g_ns2009_data.read_y`. -/
def ns2009_read_y (g : ns2009_data) (bus : Nat → Nat) : Option Nat :=
  match g.read_y with
  | none => none
  | some f => call_read_fn f g bus

/-- `__ns2009_is_pressed`: the press line is active low. -/
def __ns2009_is_pressed (priv : ns2009_data) (gpio_get : Nat → Bool) : Bool :=
  !gpio_get priv.irq_pin

/-- `ns2009_is_pressed` on the global state. -/
def ns2009_is_pressed (g : ns2009_data) (gpio_get : Nat → Bool) : Bool :=
  __ns2009_is_pressed g gpio_get

/-! ## Orientation controller -/

/-- `swap_float`: the pair of values of `*a` and `*b` after the call. -/
def swap_float (a b : float) : float × float :=
  let temp := a
  let a := b
  let b := temp
  (a, b)

/-- `__ns2009_set_dir`, statement by statement. The temporary `offs_tmp` is a
`u16` object although the offsets are `int`. -/
def __ns2009_set_dir (B : ns2009_dir_bits) (priv : ns2009_data) (dir : Nat) : ns2009_data :=
  let priv := { priv with dir := dir }
  let priv :=
    if dir &&& B.NS2009_DIR_INVERT_X ≠ 0 then { priv with invert_x := true }
    else { priv with invert_x := false }
  let priv :=
    if dir &&& B.NS2009_DIR_INVERT_Y ≠ 0 then { priv with invert_y := true }
    else { priv with invert_y := false }
  if dir &&& B.NS2009_DIR_SWITCH_XY ≠ 0 then
    let priv := { priv with switch_xy := true }
    let priv := { priv with read_x := some .__ns2009_read_y }
    let priv := { priv with read_y := some .__ns2009_read_x }
    let invert_tmp : Bool := priv.invert_x
    let priv := { priv with invert_x := priv.invert_y }
    let priv := { priv with invert_y := invert_tmp }
    let offs_tmp : Nat := to_u16 priv.rtp_x_offs
    let priv := { priv with rtp_x_offs := priv.rtp_y_offs }
    let priv := { priv with rtp_y_offs := (offs_tmp : Int) }
    let sc := swap_float priv.rtp_x_sc priv.rtp_y_sc
    let priv := { priv with rtp_x_sc := sc.1, rtp_y_sc := sc.2 }
    let res_tmp : Nat := priv.tft_x_res
    let priv := { priv with tft_x_res := priv.tft_y_res }
    let priv := { priv with tft_y_res := res_tmp }
    priv
  else
    let priv := { priv with switch_xy := false }
    let priv := { priv with read_x := some .__ns2009_read_x }
    let priv := { priv with read_y := some .__ns2009_read_y }
    priv

/-- `ns2009_set_dir` on the global state. -/
def ns2009_set_dir (B : ns2009_dir_bits) (g : ns2009_data) (dir : Nat) : ns2009_data :=
  __ns2009_set_dir B g dir

/-- The state after a sequence of `ns2009_set_dir` calls, oldest first. -/
def set_dir_seq (B : ns2009_dir_bits) (g : ns2009_data) (dirs : List Nat) : ns2009_data :=
  dirs.foldl (ns2009_set_dir B) g

/-! ## Initialisation -/

/-- `ns2009_hw_init`: the bus and pin set-up calls act on the hardware only; the
state changes through the closing `__ns2009_set_dir(priv, priv->dir)`. -/
def ns2009_hw_init (B : ns2009_dir_bits) (priv : ns2009_data) : ns2009_data :=
  __ns2009_set_dir B priv priv.dir

/-- `ns2009_probe`, up to the call of `ns2009_hw_init`: the baseline
configuration. `ILI9488_X_RES` and `ILI9488_Y_RES` come from `ili9488.h`
and are parameters. -/
def ns2009_probe_baseline (B : ns2009_dir_bits) (ILI9488_X_RES ILI9488_Y_RES : Nat)
    (priv : ns2009_data) : ns2009_data :=
  let priv := { priv with i2c := { priv.i2c with master := i2c1 } }
  let priv := { priv with i2c := { priv.i2c with addr := NS2009_ADDR } }
  let priv := { priv with i2c := { priv.i2c with scl_pin := NS2009_PIN_SCL } }
  let priv := { priv with i2c := { priv.i2c with sda_pin := NS2009_PIN_SDA } }
  let priv := { priv with irq_pin := NS2009_PIN_IRQ }
  let priv := { priv with tft_x_res := ILI9488_X_RES % 65536 }
  let priv := { priv with tft_y_res := ILI9488_Y_RES % 65536 }
  let priv := { priv with invert_x := false }
  let priv := { priv with invert_y := false }
  let priv := { priv with rtp_x_width := 80 }
  let priv := { priv with rtp_y_width := 54 }
  let priv := { priv with rtp_x_res := 415 }
  let priv := { priv with rtp_y_res := 285 }
  let priv := { priv with rtp_x_offs := 5 }
  let priv := { priv with rtp_y_offs := -20 }
  let priv := { priv with res := .NS2009_RESOLUTION_8BIT }
  let priv := { priv with
    rtp_x_sc := float.div (float.ofInt priv.tft_x_res) (float.ofInt priv.rtp_x_res) }
  let priv := { priv with
    rtp_y_sc := float.div (float.ofInt priv.tft_y_res) (float.ofInt priv.rtp_y_res) }
  let priv := { priv with dir := B.NS2009_DIR_SWITCH_XY ||| B.NS2009_DIR_INVERT_Y }
  priv

/-- `ns2009_probe`: the new state and the return value `0`. -/
def ns2009_probe (B : ns2009_dir_bits) (ILI9488_X_RES ILI9488_Y_RES : Nat)
    (priv : ns2009_data) : ns2009_data × Int :=
  let priv := ns2009_probe_baseline B ILI9488_X_RES ILI9488_Y_RES priv
  let priv := ns2009_hw_init B priv
  (priv, 0)

/-- The zero-initialised global `g_ns2009_data` at program start. In C its `res`
holds 0, which is no enumerator of `ns2009_res_t`; it is shown here with the
value `ns2009_probe` stores. Nothing reads `res` before the probe overwrites it,
and the probe's result does not depend on it (`probe_ignores_prior_res`). -/
def g_ns2009_data : ns2009_data :=
  { i2c := { addr := 0, master := 0, speed := 0, scl_pin := 0, sda_pin := 0 }
    irq_pin := 0
    tft_x_res := 0, tft_y_res := 0
    rtp_x_res := 0, rtp_y_res := 0
    rtp_x_width := 0, rtp_y_width := 0
    rtp_x_offs := 0, rtp_y_offs := 0
    rtp_x_sc := float.finite false 0 0, rtp_y_sc := float.finite false 0 0
    res := .NS2009_RESOLUTION_8BIT
    dir := 0
    invert_x := false, invert_y := false, switch_xy := false
    read_x := none, read_y := none }

/-- `ns2009_driver_init`: the global state after the call, and the return value. -/
def ns2009_driver_init (B : ns2009_dir_bits) (ILI9488_X_RES ILI9488_Y_RES : Nat) :
    ns2009_data × Int :=
  let r := ns2009_probe B ILI9488_X_RES ILI9488_Y_RES g_ns2009_data
  (r.1, 0)

/-- Flag values used for the concrete instances below: one bit per flag. -/
def dir_bits_example : ns2009_dir_bits :=
  { NS2009_DIR_INVERT_X := 1, NS2009_DIR_INVERT_Y := 2, NS2009_DIR_SWITCH_XY := 4 }

/-! ## Auxiliary notions for the statements -/

/-- Number of calls in `dirs` that request the axis swap. -/
def swap_count (B : ns2009_dir_bits) (dirs : List Nat) : Nat :=
  (dirs.filter (fun dir => dir &&& B.NS2009_DIR_SWITCH_XY ≠ 0)).length

/-- The resolution and scale pairs of `c` are those of the baseline `c0`. -/
def res_sc_as_baseline (c0 c : ns2009_data) : Prop :=
  c.tft_x_res = c0.tft_x_res ∧ c.tft_y_res = c0.tft_y_res ∧
  c.rtp_x_sc = c0.rtp_x_sc ∧ c.rtp_y_sc = c0.rtp_y_sc

instance (c0 c : ns2009_data) : Decidable (res_sc_as_baseline c0 c) := by
  unfold res_sc_as_baseline
  infer_instance

/-- The resolution and scale pairs of `c` are those of the baseline `c0`, exchanged
between X and Y. -/
def res_sc_exchanged (c0 c : ns2009_data) : Prop :=
  c.tft_x_res = c0.tft_y_res ∧ c.tft_y_res = c0.tft_x_res ∧
  c.rtp_x_sc = c0.rtp_y_sc ∧ c.rtp_y_sc = c0.rtp_x_sc

instance (c0 c : ns2009_data) : Decidable (res_sc_exchanged c0 c) := by
  unfold res_sc_exchanged
  infer_instance

/-- Both offsets of `c` are values a `u16` can hold. -/
def offs_in_u16 (c : ns2009_data) : Prop :=
  0 ≤ c.rtp_x_offs ∧ c.rtp_x_offs < 65536 ∧ 0 ≤ c.rtp_y_offs ∧ c.rtp_y_offs < 65536

instance (c : ns2009_data) : Decidable (offs_in_u16 c) := by
  unfold offs_in_u16
  infer_instance

/-- The baseline configuration of a 320 x 480 display, before any orientation
is applied. -/
def baseline_320x480 : ns2009_data :=
  ns2009_probe_baseline dir_bits_example 320 480 g_ns2009_data

/-- A configuration with equal X and Y values in every permuted pair: the
320 x 480 baseline with the Y resolution, scale and offset set to those of X. -/
def symmetric_320x320 : ns2009_data :=
  { baseline_320x480 with
    tft_y_res := baseline_320x480.tft_x_res
    rtp_y_sc := baseline_320x480.rtp_x_sc
    rtp_y_offs := baseline_320x480.rtp_x_offs }

/-- The offsets of `c` are those of the baseline `c0`. -/
def offs_as_baseline (c0 c : ns2009_data) : Prop :=
  c.rtp_x_offs = c0.rtp_x_offs ∧ c.rtp_y_offs = c0.rtp_y_offs

instance (c0 c : ns2009_data) : Decidable (offs_as_baseline c0 c) := by
  unfold offs_as_baseline
  infer_instance

/-- The offsets of `c` are those of the baseline `c0`, exchanged between X and Y. -/
def offs_exchanged (c0 c : ns2009_data) : Prop :=
  c.rtp_x_offs = c0.rtp_y_offs ∧ c.rtp_y_offs = c0.rtp_x_offs

instance (c0 c : ns2009_data) : Decidable (offs_exchanged c0 c) := by
  unfold offs_exchanged
  infer_instance

/-- Pre-offset coordinate of section 4.1 of the specification:
`normalized = (v * R) / 2^bits` with truncating division, then
`base = inv ? (R - normalized) : normalized`. -/
def spec_base (v R bits : Nat) (inv : Bool) : Int :=
  if inv then (R : Int) - ((v * R / 2 ^ bits : Nat) : Int) else ((v * R / 2 ^ bits : Nat) : Int)

/-- Calibration transform as section 4.1 of the specification words it:
`result = round_to_integer((base + O) * S)`. -/
def spec_calibration (v R bits : Nat) (inv : Bool) (O : Int) (S : ℚ) : Int :=
  round (((spec_base v R bits inv + O : Int) : ℚ) * S)

/-- The normalisation divisor `1 << priv->res` that both readers divide by. -/
def norm_divisor (priv : ns2009_data) : Nat := 1 <<< priv.res.toNat

/-- `ns2009_is_pressed` with the global state made explicit: the state after the
call and the value returned. The function only reads `priv->irq_pin`. -/
def ns2009_is_pressed_state (g : ns2009_data) (gpio_get : Nat → Bool) : ns2009_data × Bool :=
  (g, ns2009_is_pressed g gpio_get)

/-- The value held after the offset is added, as a wrapped 16-bit sum:
`(base + O) mod 2^16`. -/
def spec_wrapped_sum (v R bits : Nat) (inv : Bool) (O : Int) : Int :=
  (spec_base v R bits inv + O) % 65536

/-- Bound on the binary32 rounding error of a non-negative product `p`: `2^-24`
of it, or `2^-150` in the subnormal range. -/
def float_err (p : ℚ) : ℚ := max (p / 2 ^ 24) (1 / 2 ^ 150)

/-! ## Orientation controller: closed forms -/

/-- A store into a `u16` keeps a value that is in range. -/
theorem to_u16_of_range (n : Int) (h0 : 0 ≤ n) (h1 : n < 65536) : (to_u16 n : Int) = n := by
  unfold to_u16
  rw [Int.emod_eq_of_lt h0 h1]
  exact Int.toNat_of_nonneg h0

/-- A stored `u16` value is in range. -/
theorem to_u16_range (n : Int) : 0 ≤ (to_u16 n : Int) ∧ (to_u16 n : Int) < 65536 := by
  unfold to_u16
  have h1 : 0 ≤ n % 65536 := Int.emod_nonneg n (by decide)
  have h2 : n % 65536 < 65536 := Int.emod_lt_of_pos n (by decide)
  rw [Int.toNat_of_nonneg h1]
  exact ⟨h1, h2⟩

/-- Storing twice is storing once. -/
theorem to_u16_idem (n : Int) : to_u16 (to_u16 n : Int) = to_u16 n := by
  have h := to_u16_range n
  have := to_u16_of_range (to_u16 n : Int) h.1 h.2
  exact_mod_cast this

/-- The state after `__ns2009_set_dir` with the swap flag in the mask. -/
theorem set_dir_swap (B : ns2009_dir_bits) (c : ns2009_data) (dir : Nat)
    (h : dir &&& B.NS2009_DIR_SWITCH_XY ≠ 0) :
    __ns2009_set_dir B c dir =
      { c with
        dir := dir
        invert_x := decide (dir &&& B.NS2009_DIR_INVERT_Y ≠ 0)
        invert_y := decide (dir &&& B.NS2009_DIR_INVERT_X ≠ 0)
        switch_xy := true
        read_x := some .__ns2009_read_y
        read_y := some .__ns2009_read_x
        rtp_x_offs := c.rtp_y_offs
        rtp_y_offs := (to_u16 c.rtp_x_offs : Int)
        rtp_x_sc := c.rtp_y_sc
        rtp_y_sc := c.rtp_x_sc
        tft_x_res := c.tft_y_res
        tft_y_res := c.tft_x_res } := by
  unfold __ns2009_set_dir swap_float
  by_cases hx : dir &&& B.NS2009_DIR_INVERT_X = 0 <;>
    by_cases hy : dir &&& B.NS2009_DIR_INVERT_Y = 0 <;> simp [h, hx, hy]

/-- The state after `__ns2009_set_dir` without the swap flag in the mask. -/
theorem set_dir_noswap (B : ns2009_dir_bits) (c : ns2009_data) (dir : Nat)
    (h : dir &&& B.NS2009_DIR_SWITCH_XY = 0) :
    __ns2009_set_dir B c dir =
      { c with
        dir := dir
        invert_x := decide (dir &&& B.NS2009_DIR_INVERT_X ≠ 0)
        invert_y := decide (dir &&& B.NS2009_DIR_INVERT_Y ≠ 0)
        switch_xy := false
        read_x := some .__ns2009_read_x
        read_y := some .__ns2009_read_y } := by
  unfold __ns2009_set_dir
  by_cases hx : dir &&& B.NS2009_DIR_INVERT_X = 0 <;>
    by_cases hy : dir &&& B.NS2009_DIR_INVERT_Y = 0 <;> simp [h, hx, hy]

/-- `ns2009_probe` overwrites the sample width: its result is the same whatever
`res` the structure held before the call. -/
theorem probe_ignores_prior_res (B : ns2009_dir_bits) (XR YR : Nat) (priv : ns2009_data)
    (r : ns2009_res_t) :
    ns2009_probe B XR YR { priv with res := r } = ns2009_probe B XR YR priv := by
  rfl

/-! ## Binary32 arithmetic: value and accuracy -/

/-- The integral part of a magnitude is the floor of its value. -/
theorem truncMag_floor (m : Nat) (e : Int) :
    ((float.truncMag m e : Nat) : Int) = ⌊(m : ℚ) * (2 : ℚ) ^ e⌋ := by
  unfold float.truncMag
  by_cases he : 0 ≤ e
  · obtain ⟨k, rfl⟩ := Int.eq_ofNat_of_zero_le he
    simp only [he, if_true, Int.toNat_ofNat, zpow_natCast]
    have : (m : ℚ) * 2 ^ k = ((m * 2 ^ k : Nat) : ℚ) := by push_cast; ring
    rw [this]
    exact (Int.floor_natCast _).symm
  · simp only [he, if_false]
    have hk : e = -((-e).toNat : Int) := by
      rw [Int.toNat_of_nonneg (by omega)]; ring
    generalize (-e).toNat = k at hk
    subst hk
    rw [zpow_neg, zpow_natCast]
    have : (m : ℚ) * ((2 : ℚ) ^ k)⁻¹ = (m : ℚ) / ((2 ^ k : Nat) : ℚ) := by
      push_cast; rw [div_eq_mul_inv]
    rw [this, Rat.floor_natCast_div_natCast]
    simp

/-- Conversion to `u16` of a finite value in `[0, 65536)` is its floor. -/
theorem toU16_of_toRat (f : float) (q : ℚ) (hq : f.toRat = some q) (h0 : 0 ≤ q)
    (h1 : q < 65536) : f.toU16 = some ⌊q⌋.toNat := by
  cases f with
  | inf s => simp [float.toRat] at hq
  | nan => simp [float.toRat] at hq
  | finite s m e =>
    simp only [float.toRat, Option.some.injEq] at hq
    have hpow : (0 : ℚ) < (2 : ℚ) ^ e := zpow_pos (by norm_num) e
    have hfl := truncMag_floor m e
    cases s with
    | true =>
      simp only [if_true] at hq
      have hm : m = 0 := by
        by_contra hne
        have : (0 : ℚ) < (m : ℚ) := by exact_mod_cast Nat.pos_of_ne_zero hne
        have : (0 : ℚ) < (m : ℚ) * (2 : ℚ) ^ e := mul_pos this hpow
        linarith
      subst hm
      have hq0 : q = 0 := by rw [← hq]; simp
      subst hq0
      simp [float.toU16, float.truncMag]
    | false =>
      simp only [Bool.false_eq_true, if_false, one_mul] at hq
      rw [hq] at hfl
      have hlt : ⌊q⌋ < 65536 := by
        have : (⌊q⌋ : ℚ) ≤ q := Int.floor_le q
        have : (⌊q⌋ : ℚ) < 65536 := lt_of_le_of_lt this h1
        exact_mod_cast this
      have ht : float.truncMag m e < 65536 := by omega
      have : ⌊q⌋.toNat = float.truncMag m e := by omega
      simp [float.toU16, ht, this]

/-- Zero has no binary digits, whatever the fuel. -/
theorem bitlenAux_zero (fuel : Nat) : bitlenAux fuel 0 = 0 := by
  cases fuel <;> simp [bitlenAux]

/-- With enough fuel, `n` lies below `2^bitlen` and, when non-zero, at or above half of it. -/
theorem bitlenAux_bounds (fuel : Nat) :
    ∀ n : Nat, n ≤ fuel →
      n < 2 ^ bitlenAux fuel n ∧ (n ≠ 0 → 2 ^ bitlenAux fuel n ≤ 2 * n) := by
  induction fuel with
  | zero =>
    intro n hn
    have : n = 0 := by omega
    subst this
    simp [bitlenAux]
  | succ fuel ih =>
    intro n hn
    by_cases h0 : n = 0
    · subst h0
      simp [bitlenAux]
    · have hstep : bitlenAux (fuel + 1) n = bitlenAux fuel (n / 2) + 1 := by
        simp [bitlenAux, h0]
      have hle : n / 2 ≤ fuel := by omega
      obtain ⟨h1, h2⟩ := ih (n / 2) hle
      rw [hstep, pow_succ]
      refine ⟨by omega, fun _ => ?_⟩
      by_cases hh : n / 2 = 0
      · rw [hh, bitlenAux_zero]
        simp
        omega
      · have := h2 hh
        omega

/-- Upper bound given by the digit count. -/
theorem bitlen_lt (n : Nat) : n < 2 ^ bitlen n :=
  (bitlenAux_bounds n n (Nat.le_refl n)).1

/-- Lower bound given by the digit count. -/
theorem bitlen_le (n : Nat) (h : n ≠ 0) : 2 ^ bitlen n ≤ 2 * n :=
  (bitlenAux_bounds n n (Nat.le_refl n)).2 h

/-- A number below `2^k` has at most `k` digits. -/
theorem bitlen_le_of_lt (n k : Nat) (h : n < 2 ^ k) : bitlen n ≤ k := by
  by_cases h0 : n = 0
  · subst h0; simp [bitlen, bitlenAux_zero]
  · by_contra hlt
    have hk : k + 1 ≤ bitlen n := by omega
    have h1 : 2 ^ (k + 1) ≤ 2 ^ bitlen n := Nat.pow_le_pow_right (by decide) hk
    have h2 := bitlen_le n h0
    rw [pow_succ] at h1
    omega

/-- The rounded quotient, scaled back, is within half a unit of the last kept
place of `m`. -/
theorem roundShift_close (m shift : Nat) (hs : 0 < shift) :
    |((float.roundShift m shift false : Nat) : ℚ) * 2 ^ shift - (m : ℚ)| ≤ 2 ^ (shift - 1) := by
  have hpow : 2 ^ shift = 2 * 2 ^ (shift - 1) := by
    obtain ⟨k, rfl⟩ : ∃ k, shift = k + 1 := ⟨shift - 1, by omega⟩
    simp [pow_succ, Nat.mul_comm]
  have hdm := Nat.div_add_mod m (2 ^ shift)
  have hr := Nat.mod_lt m (show 0 < 2 ^ shift by positivity)
  unfold float.roundShift
  simp only [Bool.false_eq_true, false_or]
  generalize m / 2 ^ shift = q at *
  generalize m % 2 ^ shift = r at *
  have hhalf : (2 : ℚ) ^ (shift - 1) = ((2 ^ (shift - 1) : Nat) : ℚ) := by push_cast; rfl
  have hpq' : (2 : ℚ) ^ shift = 2 * ((2 ^ (shift - 1) : Nat) : ℚ) := by
    have : ((2 ^ shift : Nat) : ℚ) = ((2 * 2 ^ (shift - 1) : Nat) : ℚ) := by rw [← hpow]
    push_cast at this ⊢
    exact this
  rw [hhalf, hpq']
  generalize 2 ^ (shift - 1) = half at *
  have hmq : (m : ℚ) = 2 * (half : ℚ) * (q : ℚ) + (r : ℚ) := by
    have : m = 2 * half * q + r := by rw [← hdm, hpow]
    exact_mod_cast this
  rw [hmq]
  have hrq : (r : ℚ) < 2 * (half : ℚ) := by
    have : r < 2 * half := by omega
    exact_mod_cast this
  have hr0 : (0 : ℚ) ≤ (r : ℚ) := by positivity
  split
  · rename_i hup
    have hge : half ≤ r := by
      rcases hup with h | ⟨h, _⟩ <;> omega
    have hgeq : (half : ℚ) ≤ (r : ℚ) := by exact_mod_cast hge
    push_cast
    rw [abs_le]
    constructor <;> nlinarith
  · rename_i hup
    have hle : r ≤ half := by
      by_contra hlt
      exact hup (Or.inl (by omega))
    have hleq : (r : ℚ) ≤ (half : ℚ) := by exact_mod_cast hle
    rw [abs_le]
    constructor <;> nlinarith

/-- Rounding nothing gives nothing. -/
theorem roundShift_zero (shift : Nat) : float.roundShift 0 shift false = 0 := by
  unfold float.roundShift
  have hp : 0 < 2 ^ (shift - 1) := by positivity
  simp only [Nat.zero_div, Nat.zero_mod, Bool.false_eq_true, false_or]
  rw [if_neg]
  rintro (h | ⟨h, _⟩) <;> omega

/-- The rounding function writes its result as a packed pair `(Q, e')` whose
magnitude is within `2^-24` of the exact magnitude (within `2^-150` in the
subnormal range); a zero magnitude stays zero. -/
theorem round_core (s : Bool) (m : Nat) (e : Int) :
    ∃ (Q : Nat) (e' : Int), float.round s m e false = float.pack s Q e' ∧
      |(Q : ℚ) * (2 : ℚ) ^ e' - (m : ℚ) * (2 : ℚ) ^ e|
        ≤ max ((m : ℚ) * (2 : ℚ) ^ e / 2 ^ 24) (1 / 2 ^ 150) ∧
      (m = 0 → Q = 0) := by
  have hpe : (0 : ℚ) < (2 : ℚ) ^ e := zpow_pos (by norm_num) e
  unfold float.round
  by_cases hle : max (e + (bitlen m : Int) - 24) (-149) ≤ e
  · refine ⟨m, e, by simp only [hle, if_true], ?_, fun h => h⟩
    rw [sub_self, abs_zero]
    exact le_max_of_le_right (by positivity)
  · have hshift : (0 : Int) < max (e + (bitlen m : Int) - 24) (-149) - e := by omega
    obtain ⟨shift, hk⟩ : ∃ shift : Nat,
        (max (e + (bitlen m : Int) - 24) (-149) - e).toNat = shift := ⟨_, rfl⟩
    have hkpos : 0 < shift := by omega
    have he' : max (e + (bitlen m : Int) - 24) (-149) = e + (shift : Int) := by omega
    refine ⟨float.roundShift m shift false, e + (shift : Int), ?_, ?_, ?_⟩
    · have hle' : ¬ (e + (shift : Int) ≤ e) := by omega
      have hks : (e + (shift : Int) - e).toNat = shift := by omega
      simp only [he', hle', if_false, hks]
    · have hclose := roundShift_close m shift hkpos
      have hsplit : (2 : ℚ) ^ (e + (shift : Int)) = (2 : ℚ) ^ shift * (2 : ℚ) ^ e := by
        rw [zpow_add₀ (by norm_num), zpow_natCast, mul_comm]
      rw [hsplit]
      generalize ((float.roundShift m shift false : Nat) : ℚ) = Q at hclose ⊢
      have hfact : Q * ((2 : ℚ) ^ shift * (2 : ℚ) ^ e) - (m : ℚ) * (2 : ℚ) ^ e
          = (Q * 2 ^ shift - (m : ℚ)) * (2 : ℚ) ^ e := by ring
      rw [hfact, abs_mul, abs_of_pos hpe]
      have hb : |Q * 2 ^ shift - (m : ℚ)| * (2 : ℚ) ^ e
          ≤ (2 : ℚ) ^ (shift - 1) * (2 : ℚ) ^ e :=
        mul_le_mul_of_nonneg_right hclose hpe.le
      refine le_trans hb ?_
      by_cases hcase : (-149 : Int) ≤ e + (bitlen m : Int) - 24
      · -- normal range: the last kept place is `2^-24` relative to the leading bit
        apply le_max_of_le_left
        have hL : bitlen m = shift + 24 := by omega
        have hm0 : m ≠ 0 := by
          intro h0
          subst h0
          simp [bitlen, bitlenAux_zero] at hL
        have hbl := bitlen_le m hm0
        rw [hL] at hbl
        have hbq : (2 : ℚ) ^ (shift + 24) ≤ 2 * (m : ℚ) := by exact_mod_cast hbl
        have hsh : (2 : ℚ) ^ shift = 2 * (2 : ℚ) ^ (shift - 1) := by
          obtain ⟨k, rfl⟩ : ∃ k, shift = k + 1 := ⟨shift - 1, by omega⟩
          simp [pow_succ, mul_comm]
        rw [pow_add, hsh] at hbq
        have hx : (2 : ℚ) ^ (shift - 1) ≤ (m : ℚ) / 2 ^ 24 := by
          rw [le_div_iff₀ (by positivity)]
          linarith
        calc (2 : ℚ) ^ (shift - 1) * (2 : ℚ) ^ e ≤ (m : ℚ) / 2 ^ 24 * (2 : ℚ) ^ e :=
              mul_le_mul_of_nonneg_right hx hpe.le
          _ = (m : ℚ) * (2 : ℚ) ^ e / 2 ^ 24 := by ring
      · -- subnormal range: the last kept place is `2^-149`
        apply le_max_of_le_right
        have hee : e = -149 - (shift : Int) := by omega
        have h1 : (2 : ℚ) ^ (shift - 1) * (2 : ℚ) ^ e = (2 : ℚ) ^ (-150 : Int) := by
          rw [← zpow_natCast, ← zpow_add₀ (by norm_num)]
          congr 1
          omega
        rw [h1]
        norm_num [zpow_neg]
    · intro h0
      subst h0
      exact roundShift_zero shift

/-- A magnitude below `2^128` packs to a finite datum. -/
theorem pack_finite (s : Bool) (Q : Nat) (e : Int)
    (h : (Q : ℚ) * (2 : ℚ) ^ e < 2 ^ 128) : float.pack s Q e = float.finite s Q e := by
  unfold float.pack
  rw [if_neg]
  rintro ⟨hQ, hgt⟩
  have hbl : (2 : ℚ) ^ bitlen Q ≤ 2 * (Q : ℚ) := by exact_mod_cast bitlen_le Q hQ
  have hpe : (0 : ℚ) < (2 : ℚ) ^ e := zpow_pos (by norm_num) e
  have h1 : (2 : ℚ) ^ ((bitlen Q : Int) + e) ≤ 2 * ((Q : ℚ) * (2 : ℚ) ^ e) := by
    rw [zpow_add₀ (by norm_num), zpow_natCast]
    calc (2 : ℚ) ^ bitlen Q * (2 : ℚ) ^ e ≤ 2 * (Q : ℚ) * (2 : ℚ) ^ e :=
          mul_le_mul_of_nonneg_right hbl hpe.le
      _ = 2 * ((Q : ℚ) * (2 : ℚ) ^ e) := by ring
  have h2 : (2 : ℚ) ^ (129 : Int) ≤ (2 : ℚ) ^ ((bitlen Q : Int) + e) :=
    zpow_le_zpow_right₀ (by norm_num) (by omega)
  have h3 : (2 : ℚ) ^ (129 : Int) = 2 * 2 ^ 128 := by norm_num
  linarith

/-- Conversion of a non-negative integer below `2^24` to `float` is exact. -/
theorem ofInt_exact (n : Nat) (h : n < 2 ^ 24) :
    float.ofInt (n : Int) = float.finite false n 0 := by
  have hb : bitlen n ≤ 24 := bitlen_le_of_lt n 24 h
  unfold float.ofInt float.round float.pack
  have h1 : max ((0 : Int) + (bitlen n : Int) - 24) (-149) ≤ 0 := by omega
  have h2 : ¬ (n ≠ 0 ∧ (bitlen n : Int) + 0 > 128) := by omega
  have h3 : ¬ ((n : Int) < 0) := by omega
  simp only [Int.natAbs_ofNat, h1, h2, h3, if_true, if_false, decide_False]

/-- The `float` product of an integer below `2^24` with a finite non-negative
scale, when the exact product is at most 65535: the product is finite, lies in
`[0, 65536)`, and is the exact product up to binary32 rounding. -/
theorem mul_ofInt_in_range (n : Nat) (hn : n < 2 ^ 24) (S : float) (s : ℚ)
    (hS : S.toRat = some s) (hs0 : 0 ≤ s) (hp : (n : ℚ) * s ≤ 65535) :
    ∃ q : ℚ, (float.mul (float.ofInt (n : Int)) S).toRat = some q ∧ 0 ≤ q ∧ q < 65536 ∧
      |q - (n : ℚ) * s| ≤ max ((n : ℚ) * s / 2 ^ 24) (1 / 2 ^ 150) := by
  rw [ofInt_exact n hn]
  cases S with
  | inf t => simp [float.toRat] at hS
  | nan => simp [float.toRat] at hS
  | finite t m e =>
    simp only [float.toRat, Option.some.injEq] at hS
    simp only [float.mul, Bool.false_xor, zero_add]
    have hpe : (0 : ℚ) < (2 : ℚ) ^ e := zpow_pos (by norm_num) e
    obtain ⟨Q, e', hr, hclose, hz⟩ := round_core t (n * m) e
    have hpe' : (0 : ℚ) < (2 : ℚ) ^ e' := zpow_pos (by norm_num) e'
    rw [hr]
    cases t with
    | true =>
      simp only [if_true] at hS
      have hm : m = 0 := by
        by_contra hne
        have : (0 : ℚ) < (m : ℚ) := by exact_mod_cast Nat.pos_of_ne_zero hne
        have : (0 : ℚ) < (m : ℚ) * (2 : ℚ) ^ e := mul_pos this hpe
        linarith
      subst hm
      have hs : s = 0 := by rw [← hS]; simp
      have hQ : Q = 0 := hz (by simp)
      subst hs hQ
      rw [pack_finite true 0 e' (by simp)]
      refine ⟨0, by simp [float.toRat], le_refl _, by norm_num, ?_⟩
      simp only [mul_zero, sub_self, abs_zero, zero_div]
      exact le_max_of_le_right (by positivity)
    | false =>
      simp only [Bool.false_eq_true, if_false, one_mul] at hS
      have hval : ((n * m : Nat) : ℚ) * (2 : ℚ) ^ e = (n : ℚ) * s := by
        rw [← hS]; push_cast; ring
      rw [hval] at hclose
      have hns : (0 : ℚ) ≤ (n : ℚ) * s := mul_nonneg (by positivity) hs0
      have hmax : max ((n : ℚ) * s / 2 ^ 24) (1 / 2 ^ 150) < 1 := by
        apply max_lt
        · rw [div_lt_iff₀ (by positivity)]
          have : (65535 : ℚ) < 1 * 2 ^ 24 := by norm_num
          linarith
        · norm_num
      have hup : (Q : ℚ) * (2 : ℚ) ^ e' < 65536 := by
        have := (abs_le.mp hclose).2
        linarith
      rw [pack_finite false Q e' (lt_trans hup (by norm_num))]
      refine ⟨(Q : ℚ) * (2 : ℚ) ^ e', by simp [float.toRat], by positivity, hup, hclose⟩

/-- For a `u16` resolution and a byte sample, the pre-offset coordinate the X reader
holds is the specification's `base`. -/
theorem read_x_base_eq (c : ns2009_data) (v : Nat) (hv : v < 256)
    (hR : c.tft_x_res < 65536) :
    (read_x_base c v : Int) = spec_base v c.tft_x_res c.res.toNat c.invert_x := by
  have hbits : 256 ≤ 2 ^ c.res.toNat := by
    cases c.res <;> simp [ns2009_res_t.toNat]
  have hsh : (1 <<< c.res.toNat : Nat) = 2 ^ c.res.toNat := by
    rw [Nat.shiftLeft_eq, Nat.one_mul]
  have hdiv : ((v : Int) * (c.tft_x_res : Int)) / ((1 <<< c.res.toNat : Nat) : Int)
      = ((v * c.tft_x_res / 2 ^ c.res.toNat : Nat) : Int) := by
    rw [hsh]; push_cast; rfl
  have hle : v * c.tft_x_res / 2 ^ c.res.toNat ≤ c.tft_x_res := by
    apply Nat.div_le_of_le_mul
    calc v * c.tft_x_res ≤ 256 * c.tft_x_res := Nat.mul_le_mul_right _ (by omega)
      _ ≤ 2 ^ c.res.toNat * c.tft_x_res := Nat.mul_le_mul_right _ hbits
  unfold read_x_base spec_base
  rw [hdiv]
  generalize v * c.tft_x_res / 2 ^ c.res.toNat = n at hle ⊢
  cases c.invert_x
  · simp only [Bool.false_eq_true, if_false]
    exact to_u16_of_range _ (by omega) (by omega)
  · simp only [if_true]
    exact to_u16_of_range _ (by omega) (by omega)

/-- For a `u16` resolution and a byte sample, the pre-offset coordinate the Y reader
holds is the specification's `base`. -/
theorem read_y_base_eq (c : ns2009_data) (v : Nat) (hv : v < 256)
    (hR : c.tft_y_res < 65536) :
    (read_y_base c v : Int) = spec_base v c.tft_y_res c.res.toNat c.invert_y := by
  have hbits : 256 ≤ 2 ^ c.res.toNat := by
    cases c.res <;> simp [ns2009_res_t.toNat]
  have hsh : (1 <<< c.res.toNat : Nat) = 2 ^ c.res.toNat := by
    rw [Nat.shiftLeft_eq, Nat.one_mul]
  have hdiv : ((v : Int) * (c.tft_y_res : Int)) / ((1 <<< c.res.toNat : Nat) : Int)
      = ((v * c.tft_y_res / 2 ^ c.res.toNat : Nat) : Int) := by
    rw [hsh]; push_cast; rfl
  have hle : v * c.tft_y_res / 2 ^ c.res.toNat ≤ c.tft_y_res := by
    apply Nat.div_le_of_le_mul
    calc v * c.tft_y_res ≤ 256 * c.tft_y_res := Nat.mul_le_mul_right _ (by omega)
      _ ≤ 2 ^ c.res.toNat * c.tft_y_res := Nat.mul_le_mul_right _ hbits
  unfold read_y_base spec_base
  rw [hdiv]
  generalize v * c.tft_y_res / 2 ^ c.res.toNat = n at hle ⊢
  cases c.invert_y
  · simp only [Bool.false_eq_true, if_false]
    exact to_u16_of_range _ (by omega) (by omega)
  · simp only [if_true]
    exact to_u16_of_range _ (by omega) (by omega)

/-- The calibration arithmetic shared by both readers, on the value `x` held after
the offset is added: when `x` did not wrap, the scale is finite and non-negative
and the exact product is at most 65535, the `float` product `q` is finite, the
stored result is `q` truncated, and `q` is the exact product up to binary32
rounding. -/
theorem scale_truncates (x : Int) (S : float) (s : ℚ)
    (h0 : 0 ≤ x) (h1 : x < 65536) (hS : S.toRat = some s) (hs0 : 0 ≤ s)
    (hp : (x : ℚ) * s ≤ 65535) :
    ∃ q : ℚ, (float.mul (float.ofInt x) S).toRat = some q ∧
      float.toU16 (float.mul (float.ofInt (to_u16 x : Int)) S) = some ⌊q⌋.toNat ∧
      |q - (x : ℚ) * s| ≤ max ((x : ℚ) * s / 2 ^ 24) (1 / 2 ^ 150) := by
  have hx := to_u16_of_range x h0 h1
  rw [hx]
  obtain ⟨n, rfl⟩ := Int.eq_ofNat_of_zero_le h0
  have hn : n < 2 ^ 24 := by omega
  have hp' : (n : ℚ) * s ≤ 65535 := by simpa using hp
  obtain ⟨q, hq, hq0, hq1, herr⟩ := mul_ofInt_in_range n hn S s hS hs0 hp'
  exact ⟨q, hq, toU16_of_toRat _ q hq hq0 hq1, by simpa using herr⟩

/-! ## Orientation controller: call sequences -/

/-- One call of `ns2009_set_dir` keeps the resolution and scale pairs when the mask
has no swap flag and exchanges them when it has. -/
theorem set_dir_res_sc_step (B : ns2009_dir_bits) (c0 c : ns2009_data) (dir : Nat) :
    (res_sc_as_baseline c0 c →
      if dir &&& B.NS2009_DIR_SWITCH_XY ≠ 0 then res_sc_exchanged c0 (ns2009_set_dir B c dir)
      else res_sc_as_baseline c0 (ns2009_set_dir B c dir)) ∧
    (res_sc_exchanged c0 c →
      if dir &&& B.NS2009_DIR_SWITCH_XY ≠ 0 then res_sc_as_baseline c0 (ns2009_set_dir B c dir)
      else res_sc_exchanged c0 (ns2009_set_dir B c dir)) := by
  unfold ns2009_set_dir res_sc_as_baseline res_sc_exchanged
  by_cases h : dir &&& B.NS2009_DIR_SWITCH_XY = 0
  · rw [set_dir_noswap B c dir h]
    simp [h]
  · rw [set_dir_swap B c dir h]
    simp only [ne_eq, h, not_false_eq_true, if_true]
    constructor <;> (rintro ⟨h1, h2, h3, h4⟩; exact ⟨h2, h1, h4, h3⟩)

/-- One call of `ns2009_set_dir` keeps or exchanges offsets that fit a `u16`. -/
theorem set_dir_offs_step (B : ns2009_dir_bits) (c0 c : ns2009_data) (dir : Nat)
    (h0 : offs_in_u16 c0) :
    (offs_as_baseline c0 c →
      if dir &&& B.NS2009_DIR_SWITCH_XY ≠ 0 then offs_exchanged c0 (ns2009_set_dir B c dir)
      else offs_as_baseline c0 (ns2009_set_dir B c dir)) ∧
    (offs_exchanged c0 c →
      if dir &&& B.NS2009_DIR_SWITCH_XY ≠ 0 then offs_as_baseline c0 (ns2009_set_dir B c dir)
      else offs_exchanged c0 (ns2009_set_dir B c dir)) := by
  obtain ⟨hx0, hx1, hy0, hy1⟩ := h0
  unfold ns2009_set_dir offs_as_baseline offs_exchanged
  by_cases h : dir &&& B.NS2009_DIR_SWITCH_XY = 0
  · rw [set_dir_noswap B c dir h]
    simp [h]
  · rw [set_dir_swap B c dir h]
    simp only [ne_eq, h, not_false_eq_true, if_true]
    constructor
    · rintro ⟨h1, h2⟩
      exact ⟨h2, by rw [h1]; exact to_u16_of_range _ hx0 hx1⟩
    · rintro ⟨h1, h2⟩
      exact ⟨h2, by rw [h1]; exact to_u16_of_range _ hy0 hy1⟩

/-- Counting swap requests over a list with one more call at the front. -/
theorem swap_count_cons (B : ns2009_dir_bits) (dir : Nat) (dirs : List Nat) :
    swap_count B (dir :: dirs) =
      (if dir &&& B.NS2009_DIR_SWITCH_XY ≠ 0 then 1 else 0) + swap_count B dirs := by
  unfold swap_count
  by_cases h : dir &&& B.NS2009_DIR_SWITCH_XY = 0
  · simp [List.filter_cons, h]
  · simp [List.filter_cons, h, Nat.add_comm]

/-- Pairing of resolutions and scales along a call sequence started in any state `c`
that is itself paired with the baseline `c0`. -/
theorem set_dir_seq_res_sc (B : ns2009_dir_bits) (c0 : ns2009_data) (dirs : List Nat) :
    ∀ c : ns2009_data,
      (res_sc_as_baseline c0 c →
        (swap_count B dirs % 2 = 0 → res_sc_as_baseline c0 (set_dir_seq B c dirs)) ∧
        (swap_count B dirs % 2 = 1 → res_sc_exchanged c0 (set_dir_seq B c dirs))) ∧
      (res_sc_exchanged c0 c →
        (swap_count B dirs % 2 = 0 → res_sc_exchanged c0 (set_dir_seq B c dirs)) ∧
        (swap_count B dirs % 2 = 1 → res_sc_as_baseline c0 (set_dir_seq B c dirs))) := by
  induction dirs with
  | nil =>
    intro c
    simp [set_dir_seq, swap_count]
  | cons dir dirs ih =>
    intro c
    have hstep := set_dir_res_sc_step B c0 c dir
    have ih' := ih (ns2009_set_dir B c dir)
    have hseq : set_dir_seq B c (dir :: dirs) = set_dir_seq B (ns2009_set_dir B c dir) dirs := rfl
    rw [hseq, swap_count_cons]
    by_cases h : dir &&& B.NS2009_DIR_SWITCH_XY = 0
    · simp only [ne_eq, h, not_true_eq_false, if_false, Nat.zero_add] at hstep ⊢
      exact ⟨fun hb => ih'.1 (hstep.1 hb), fun he => ih'.2 (hstep.2 he)⟩
    · simp only [ne_eq, h, not_false_eq_true, if_true] at hstep ⊢
      refine ⟨fun hb => ?_, fun he => ?_⟩
      · have := ih'.2 (hstep.1 hb)
        exact ⟨fun hp => this.2 (by omega), fun hp => this.1 (by omega)⟩
      · have := ih'.1 (hstep.2 he)
        exact ⟨fun hp => this.2 (by omega), fun hp => this.1 (by omega)⟩

/-- Pairing of offsets that fit a `u16` along a call sequence. -/
theorem set_dir_seq_offs (B : ns2009_dir_bits) (c0 : ns2009_data) (dirs : List Nat)
    (h0 : offs_in_u16 c0) :
    ∀ c : ns2009_data,
      (offs_as_baseline c0 c →
        (swap_count B dirs % 2 = 0 → offs_as_baseline c0 (set_dir_seq B c dirs)) ∧
        (swap_count B dirs % 2 = 1 → offs_exchanged c0 (set_dir_seq B c dirs))) ∧
      (offs_exchanged c0 c →
        (swap_count B dirs % 2 = 0 → offs_exchanged c0 (set_dir_seq B c dirs)) ∧
        (swap_count B dirs % 2 = 1 → offs_as_baseline c0 (set_dir_seq B c dirs))) := by
  induction dirs with
  | nil =>
    intro c
    simp [set_dir_seq, swap_count]
  | cons dir dirs ih =>
    intro c
    have hstep := set_dir_offs_step B c0 c dir h0
    have ih' := ih (ns2009_set_dir B c dir)
    have hseq : set_dir_seq B c (dir :: dirs) = set_dir_seq B (ns2009_set_dir B c dir) dirs := rfl
    rw [hseq, swap_count_cons]
    by_cases h : dir &&& B.NS2009_DIR_SWITCH_XY = 0
    · simp only [ne_eq, h, not_true_eq_false, if_false, Nat.zero_add] at hstep ⊢
      exact ⟨fun hb => ih'.1 (hstep.1 hb), fun he => ih'.2 (hstep.2 he)⟩
    · simp only [ne_eq, h, not_false_eq_true, if_true] at hstep ⊢
      refine ⟨fun hb => ?_, fun he => ?_⟩
      · have := ih'.2 (hstep.1 hb)
        exact ⟨fun hp => this.2 (by omega), fun hp => this.1 (by omega)⟩
      · have := ih'.1 (hstep.2 he)
        exact ⟨fun hp => this.2 (by omega), fun hp => this.1 (by omega)⟩

/-- The swap flag after a call sequence is the swap bit of the last mask. -/
theorem set_dir_seq_switch_xy (B : ns2009_dir_bits) (dirs : List Nat) (dir : Nat) :
    ∀ c : ns2009_data,
      (set_dir_seq B c (dirs ++ [dir])).switch_xy = decide (dir &&& B.NS2009_DIR_SWITCH_XY ≠ 0) := by
  intro c
  unfold set_dir_seq
  rw [List.foldl_append]
  simp only [List.foldl_cons, List.foldl_nil]
  unfold ns2009_set_dir
  by_cases h : dir &&& B.NS2009_DIR_SWITCH_XY = 0
  · rw [set_dir_noswap B _ dir h]; simp [h]
  · rw [set_dir_swap B _ dir h]; simp [h]

/-! ## Claims -/

/-- C1 (as amended). From any baseline configuration `c0` and for any finite
sequence of `ns2009_set_dir` calls, the paired fields move together and are
governed by the parity of the number of calls whose mask carried the swap flag,
not by the current `switch_xy`: after an even number the resolutions and scales
hold their baseline values, after an odd number they hold the baseline values
exchanged between X and Y, and the offsets follow the same pattern whenever the
baseline offsets fit a `u16`; `switch_xy` itself is the swap bit of the last
mask. -/
theorem C1_pairing_follows_swap_parity (B : ns2009_dir_bits) (c0 : ns2009_data)
    (dirs : List Nat) :
    (swap_count B dirs % 2 = 0 →
      res_sc_as_baseline c0 (set_dir_seq B c0 dirs) ∧
      (offs_in_u16 c0 → offs_as_baseline c0 (set_dir_seq B c0 dirs))) ∧
    (swap_count B dirs % 2 = 1 →
      res_sc_exchanged c0 (set_dir_seq B c0 dirs) ∧
      (offs_in_u16 c0 → offs_exchanged c0 (set_dir_seq B c0 dirs))) ∧
    (∀ dir, dirs.getLast? = some dir →
      (set_dir_seq B c0 dirs).switch_xy = decide (dir &&& B.NS2009_DIR_SWITCH_XY ≠ 0)) := by
  have hrs := (set_dir_seq_res_sc B c0 dirs c0).1 ⟨rfl, rfl, rfl, rfl⟩
  refine ⟨fun hp => ⟨hrs.1 hp, fun h0 => ?_⟩, fun hp => ⟨hrs.2 hp, fun h0 => ?_⟩, ?_⟩
  · exact ((set_dir_seq_offs B c0 dirs h0 c0).1 ⟨rfl, rfl⟩).1 hp
  · exact ((set_dir_seq_offs B c0 dirs h0 c0).1 ⟨rfl, rfl⟩).2 hp
  · intro dir hlast
    obtain ⟨init, rfl⟩ : ∃ init, dirs = init ++ [dir] := by
      rcases List.eq_nil_or_concat dirs with h | ⟨init, d, h⟩
      · subst h; simp at hlast
      · subst h
        simp at hlast
        exact ⟨init, by rw [hlast, List.concat_eq_append]⟩
    exact set_dir_seq_switch_xy B init dir c0

/-- C1, an instance of the amended statement: one swap call and one plain call
on the 320 x 480 baseline leave the pairs exchanged. -/
theorem C1_pairing_follows_swap_parity_witness :
    swap_count dir_bits_example [4, 0] % 2 = 1 ∧
    res_sc_exchanged baseline_320x480 (set_dir_seq dir_bits_example baseline_320x480 [4, 0]) :=
  ⟨by decide,
   ((C1_pairing_follows_swap_parity dir_bits_example baseline_320x480 [4, 0]).2.1
      (by decide)).1⟩

/-- C1 as stated fails: after `ns2009_set_dir(SWITCH_XY)` and then
`ns2009_set_dir(0)` on the 320 x 480 baseline, `switch_xy` is false while the
paired fields hold the exchanged values, not the baseline ones. -/
theorem C1_counterexample :
    (set_dir_seq dir_bits_example baseline_320x480 [4, 0]).switch_xy = false ∧
    baseline_320x480.tft_x_res = 320 ∧
    (set_dir_seq dir_bits_example baseline_320x480 [4, 0]).tft_x_res = 480 ∧
    (set_dir_seq dir_bits_example baseline_320x480 [4, 0]).rtp_x_offs = -20 ∧
    baseline_320x480.rtp_x_offs = 5 ∧
    (set_dir_seq dir_bits_example baseline_320x480 [4, 0]).rtp_x_sc
      ≠ baseline_320x480.rtp_x_sc := by
  decide

/-- Two calls with one mask that has the swap flag: resolutions and scales are
back where they were, and each offset has passed once through the `u16`
temporary `offs_tmp`. -/
theorem set_dir_swap_twice (B : ns2009_dir_bits) (c : ns2009_data) (dir : Nat)
    (h : dir &&& B.NS2009_DIR_SWITCH_XY ≠ 0) :
    (ns2009_set_dir B (ns2009_set_dir B c dir) dir).tft_x_res = c.tft_x_res ∧
    (ns2009_set_dir B (ns2009_set_dir B c dir) dir).tft_y_res = c.tft_y_res ∧
    (ns2009_set_dir B (ns2009_set_dir B c dir) dir).rtp_x_sc = c.rtp_x_sc ∧
    (ns2009_set_dir B (ns2009_set_dir B c dir) dir).rtp_y_sc = c.rtp_y_sc ∧
    (ns2009_set_dir B (ns2009_set_dir B c dir) dir).rtp_x_offs = (to_u16 c.rtp_x_offs : Int) ∧
    (ns2009_set_dir B (ns2009_set_dir B c dir) dir).rtp_y_offs = (to_u16 c.rtp_y_offs : Int) := by
  unfold ns2009_set_dir
  rw [set_dir_swap B _ dir h, set_dir_swap B c dir h]
  simp

/-- C2 (code defect). On the state `ns2009_driver_init` leaves for a 320 x 480
display, where `rtp_x_offs = -20`, two calls of `ns2009_set_dir(SWITCH_XY)` end
with `rtp_x_offs = 65516`: the offset went through the `u16` temporary
`offs_tmp`. The other permuted fields are restored. -/
theorem C2_round_trip_loses_negative_offset :
    (ns2009_driver_init dir_bits_example 320 480).1.rtp_x_offs = -20 ∧
    (ns2009_set_dir dir_bits_example
      (ns2009_set_dir dir_bits_example (ns2009_driver_init dir_bits_example 320 480).1 4)
      4).rtp_x_offs = 65516 ∧
    (ns2009_set_dir dir_bits_example
      (ns2009_set_dir dir_bits_example (ns2009_driver_init dir_bits_example 320 480).1 4)
      4).rtp_y_offs = (ns2009_driver_init dir_bits_example 320 480).1.rtp_y_offs ∧
    (ns2009_set_dir dir_bits_example
      (ns2009_set_dir dir_bits_example (ns2009_driver_init dir_bits_example 320 480).1 4)
      4).tft_x_res = (ns2009_driver_init dir_bits_example 320 480).1.tft_x_res ∧
    (ns2009_set_dir dir_bits_example
      (ns2009_set_dir dir_bits_example (ns2009_driver_init dir_bits_example 320 480).1 4)
      4).rtp_x_sc = (ns2009_driver_init dir_bits_example 320 480).1.rtp_x_sc := by
  decide

/-- With the swap flag, a second call with the same mask reproduces the state of
the first exactly when the first call left equal X and Y values in each permuted
pair. -/
theorem set_dir_swap_twice_eq_iff (B : ns2009_dir_bits) (c : ns2009_data) (dir : Nat)
    (h : dir &&& B.NS2009_DIR_SWITCH_XY ≠ 0) :
    ns2009_set_dir B (ns2009_set_dir B c dir) dir = ns2009_set_dir B c dir ↔
      ((ns2009_set_dir B c dir).tft_x_res = (ns2009_set_dir B c dir).tft_y_res ∧
       (ns2009_set_dir B c dir).rtp_x_sc = (ns2009_set_dir B c dir).rtp_y_sc ∧
       (ns2009_set_dir B c dir).rtp_x_offs = (ns2009_set_dir B c dir).rtp_y_offs) := by
  unfold ns2009_set_dir
  rw [set_dir_swap B _ dir h, set_dir_swap B c dir h]
  constructor
  · intro heq
    have h1 := congrArg ns2009_data.tft_x_res heq
    have h2 := congrArg ns2009_data.rtp_x_sc heq
    have h3 := congrArg ns2009_data.rtp_x_offs heq
    simp only at h1 h2 h3
    exact ⟨h1.symm, h2.symm, h3.symm⟩
  · rintro ⟨h1, h2, h3⟩
    simp only at h1 h2 h3
    have h4 : ((to_u16 c.rtp_y_offs : Nat) : Int) = (to_u16 c.rtp_x_offs : Int) := by
      rw [h3, to_u16_idem]
    simp only [h1, h2, h3, h4, to_u16_idem]

/-- C3 (as amended). For every configuration and mask, a second call of
`ns2009_set_dir` with the same mask leaves the invert flags, the swap flag, the
axis bindings, the stored orientation and the fields that are never permuted as
the first call left them. When the mask has no swap flag the whole state is
unchanged by the second call. When it has the swap flag the second call
exchanges the resolutions and the scales once more, moves `rtp_y_offs` into
`rtp_x_offs`, and moves `rtp_x_offs` into `rtp_y_offs` when that offset lies in
`[0, 65536)`; the whole state after two calls is then the state after one if and
only if the first call left `tft_x_res = tft_y_res`, `rtp_x_sc = rtp_y_sc` and
`rtp_x_offs = rtp_y_offs`. -/
theorem C3_second_call_idempotent_up_to_exchange (B : ns2009_dir_bits) (c : ns2009_data)
    (dir : Nat) :
    (dir &&& B.NS2009_DIR_SWITCH_XY = 0 →
      ns2009_set_dir B (ns2009_set_dir B c dir) dir = ns2009_set_dir B c dir) ∧
    ((ns2009_set_dir B (ns2009_set_dir B c dir) dir).invert_x = (ns2009_set_dir B c dir).invert_x ∧
     (ns2009_set_dir B (ns2009_set_dir B c dir) dir).invert_y = (ns2009_set_dir B c dir).invert_y ∧
     (ns2009_set_dir B (ns2009_set_dir B c dir) dir).switch_xy = (ns2009_set_dir B c dir).switch_xy ∧
     (ns2009_set_dir B (ns2009_set_dir B c dir) dir).read_x = (ns2009_set_dir B c dir).read_x ∧
     (ns2009_set_dir B (ns2009_set_dir B c dir) dir).read_y = (ns2009_set_dir B c dir).read_y ∧
     (ns2009_set_dir B (ns2009_set_dir B c dir) dir).dir = (ns2009_set_dir B c dir).dir ∧
     (ns2009_set_dir B (ns2009_set_dir B c dir) dir).rtp_x_res = (ns2009_set_dir B c dir).rtp_x_res ∧
     (ns2009_set_dir B (ns2009_set_dir B c dir) dir).rtp_y_res = (ns2009_set_dir B c dir).rtp_y_res ∧
     (ns2009_set_dir B (ns2009_set_dir B c dir) dir).res = (ns2009_set_dir B c dir).res) ∧
    (dir &&& B.NS2009_DIR_SWITCH_XY ≠ 0 →
      (ns2009_set_dir B (ns2009_set_dir B c dir) dir).tft_x_res = (ns2009_set_dir B c dir).tft_y_res ∧
      (ns2009_set_dir B (ns2009_set_dir B c dir) dir).tft_y_res = (ns2009_set_dir B c dir).tft_x_res ∧
      (ns2009_set_dir B (ns2009_set_dir B c dir) dir).rtp_x_sc = (ns2009_set_dir B c dir).rtp_y_sc ∧
      (ns2009_set_dir B (ns2009_set_dir B c dir) dir).rtp_y_sc = (ns2009_set_dir B c dir).rtp_x_sc ∧
      (ns2009_set_dir B (ns2009_set_dir B c dir) dir).rtp_x_offs
        = (ns2009_set_dir B c dir).rtp_y_offs ∧
      (0 ≤ (ns2009_set_dir B c dir).rtp_x_offs → (ns2009_set_dir B c dir).rtp_x_offs < 65536 →
        (ns2009_set_dir B (ns2009_set_dir B c dir) dir).rtp_y_offs
          = (ns2009_set_dir B c dir).rtp_x_offs) ∧
      (ns2009_set_dir B (ns2009_set_dir B c dir) dir = ns2009_set_dir B c dir ↔
        ((ns2009_set_dir B c dir).tft_x_res = (ns2009_set_dir B c dir).tft_y_res ∧
         (ns2009_set_dir B c dir).rtp_x_sc = (ns2009_set_dir B c dir).rtp_y_sc ∧
         (ns2009_set_dir B c dir).rtp_x_offs = (ns2009_set_dir B c dir).rtp_y_offs))) := by
  refine ⟨?_, ?_, fun h => ⟨?_, ?_, ?_, ?_, ?_, ?_, set_dir_swap_twice_eq_iff B c dir h⟩⟩
  · intro h
    unfold ns2009_set_dir
    rw [set_dir_noswap B _ dir h, set_dir_noswap B c dir h]
  · unfold ns2009_set_dir
    by_cases h : dir &&& B.NS2009_DIR_SWITCH_XY = 0
    · rw [set_dir_noswap B _ dir h, set_dir_noswap B c dir h]
      simp
    · rw [set_dir_swap B _ dir h, set_dir_swap B c dir h]
      simp
  · unfold ns2009_set_dir
    rw [set_dir_swap B _ dir h]
  · unfold ns2009_set_dir
    rw [set_dir_swap B _ dir h]
  · unfold ns2009_set_dir
    rw [set_dir_swap B _ dir h]
  · unfold ns2009_set_dir
    rw [set_dir_swap B _ dir h]
  · unfold ns2009_set_dir
    rw [set_dir_swap B _ dir h]
  · intro h0 h1
    unfold ns2009_set_dir at h0 h1 ⊢
    rw [set_dir_swap B _ dir h]
    exact to_u16_of_range _ h0 h1

/-- C3, instances of the amended statement. On the 320 x 480 baseline the mask
`INVERT_X` (no swap flag) applied twice gives the state of one application; with
the mask `SWITCH_XY` the second call exchanges the resolutions again and the
state after two calls is not the state after one. On the symmetric configuration
(320 x 320, equal scales, both offsets 5) the mask `SWITCH_XY` applied twice
gives the state of one application. -/
theorem C3_second_call_idempotent_up_to_exchange_witness :
    ((1 : Nat) &&& dir_bits_example.NS2009_DIR_SWITCH_XY = 0 ∧
     ns2009_set_dir dir_bits_example (ns2009_set_dir dir_bits_example baseline_320x480 1) 1
       = ns2009_set_dir dir_bits_example baseline_320x480 1) ∧
    ((4 : Nat) &&& dir_bits_example.NS2009_DIR_SWITCH_XY ≠ 0 ∧
     (ns2009_set_dir dir_bits_example (ns2009_set_dir dir_bits_example baseline_320x480 4)
        4).tft_x_res = (ns2009_set_dir dir_bits_example baseline_320x480 4).tft_y_res ∧
     ns2009_set_dir dir_bits_example (ns2009_set_dir dir_bits_example baseline_320x480 4) 4
       ≠ ns2009_set_dir dir_bits_example baseline_320x480 4) ∧
    ((ns2009_set_dir dir_bits_example (ns2009_set_dir dir_bits_example symmetric_320x320 4)
        4).rtp_y_offs = (ns2009_set_dir dir_bits_example symmetric_320x320 4).rtp_x_offs ∧
     ns2009_set_dir dir_bits_example (ns2009_set_dir dir_bits_example symmetric_320x320 4) 4
       = ns2009_set_dir dir_bits_example symmetric_320x320 4) :=
  ⟨⟨by decide,
    (C3_second_call_idempotent_up_to_exchange dir_bits_example baseline_320x480 1).1
      (by decide)⟩,
   ⟨by decide,
    ((C3_second_call_idempotent_up_to_exchange dir_bits_example baseline_320x480 4).2.2
      (by decide)).1,
    fun heq =>
      absurd
        ((((C3_second_call_idempotent_up_to_exchange dir_bits_example baseline_320x480 4).2.2
          (by decide)).2.2.2.2.2.2).mp heq).1
        (by decide)⟩,
   ⟨((C3_second_call_idempotent_up_to_exchange dir_bits_example symmetric_320x320 4).2.2
      (by decide)).2.2.2.2.2.1 (by decide) (by decide),
    (((C3_second_call_idempotent_up_to_exchange dir_bits_example symmetric_320x320 4).2.2
      (by decide)).2.2.2.2.2.2).mpr ⟨by decide, by decide, by decide⟩⟩⟩

/-- C3 as stated fails: on the 320 x 480 baseline the mask `SWITCH_XY` applied
twice gives `tft_x_res = 320`, applied once it gives `tft_x_res = 480`, so the
two states differ. -/
theorem C3_counterexample :
    (ns2009_set_dir dir_bits_example
      (ns2009_set_dir dir_bits_example baseline_320x480 4) 4).tft_x_res = 320 ∧
    (ns2009_set_dir dir_bits_example baseline_320x480 4).tft_x_res = 480 ∧
    ns2009_set_dir dir_bits_example (ns2009_set_dir dir_bits_example baseline_320x480 4) 4
      ≠ ns2009_set_dir dir_bits_example baseline_320x480 4 := by
  refine ⟨by decide, by decide, ?_⟩
  intro h
  have h2 := congrArg ns2009_data.tft_x_res h
  revert h2
  decide

/-- One call with the swap flag exchanges the resolutions and the scales, moves
`rtp_y_offs` into `rtp_x_offs`, and moves `rtp_x_offs` into `rtp_y_offs` through
the `u16` temporary. -/
theorem set_dir_swap_fields (B : ns2009_dir_bits) (c : ns2009_data) (dir : Nat)
    (h : dir &&& B.NS2009_DIR_SWITCH_XY ≠ 0) :
    (ns2009_set_dir B c dir).rtp_x_offs = c.rtp_y_offs ∧
    (ns2009_set_dir B c dir).rtp_y_offs = (to_u16 c.rtp_x_offs : Int) ∧
    (ns2009_set_dir B c dir).rtp_x_sc = c.rtp_y_sc ∧
    (ns2009_set_dir B c dir).rtp_y_sc = c.rtp_x_sc ∧
    (ns2009_set_dir B c dir).tft_x_res = c.tft_y_res ∧
    (ns2009_set_dir B c dir).tft_y_res = c.tft_x_res := by
  unfold ns2009_set_dir
  rw [set_dir_swap B c dir h]
  simp

/-- C4 (code defect). On the state `ns2009_driver_init` leaves for a 320 x 480
display, where `rtp_x_offs = -20`, one call of `ns2009_set_dir(SWITCH_XY)` leaves
`rtp_y_offs = 65516` instead of `-20`; the other five fields are exchanged. -/
theorem C4_exchange_truncates_negative_offset :
    (ns2009_driver_init dir_bits_example 320 480).1.rtp_x_offs = -20 ∧
    (ns2009_set_dir dir_bits_example
      (ns2009_driver_init dir_bits_example 320 480).1 4).rtp_y_offs = 65516 ∧
    (ns2009_set_dir dir_bits_example
      (ns2009_driver_init dir_bits_example 320 480).1 4).rtp_x_offs
        = (ns2009_driver_init dir_bits_example 320 480).1.rtp_y_offs ∧
    (ns2009_set_dir dir_bits_example
      (ns2009_driver_init dir_bits_example 320 480).1 4).tft_x_res
        = (ns2009_driver_init dir_bits_example 320 480).1.tft_y_res ∧
    (ns2009_set_dir dir_bits_example
      (ns2009_driver_init dir_bits_example 320 480).1 4).tft_y_res
        = (ns2009_driver_init dir_bits_example 320 480).1.tft_x_res := by
  decide

/-- Round trip on offsets a `u16` can hold. For every configuration whose offsets
lie in `[0, 65536)` and every mask with the swap flag, two calls of
`ns2009_set_dir` with that mask return all six permuted fields to their values
before the first call. -/
theorem swap_round_trip_in_range (B : ns2009_dir_bits) (c : ns2009_data) (dir : Nat)
    (h : dir &&& B.NS2009_DIR_SWITCH_XY ≠ 0) (hoffs : offs_in_u16 c) :
    (ns2009_set_dir B (ns2009_set_dir B c dir) dir).rtp_x_offs = c.rtp_x_offs ∧
    (ns2009_set_dir B (ns2009_set_dir B c dir) dir).rtp_y_offs = c.rtp_y_offs ∧
    (ns2009_set_dir B (ns2009_set_dir B c dir) dir).rtp_x_sc = c.rtp_x_sc ∧
    (ns2009_set_dir B (ns2009_set_dir B c dir) dir).rtp_y_sc = c.rtp_y_sc ∧
    (ns2009_set_dir B (ns2009_set_dir B c dir) dir).tft_x_res = c.tft_x_res ∧
    (ns2009_set_dir B (ns2009_set_dir B c dir) dir).tft_y_res = c.tft_y_res := by
  obtain ⟨hx0, hx1, hy0, hy1⟩ := hoffs
  obtain ⟨h1, h2, h3, h4, h5, h6⟩ := set_dir_swap_twice B c dir h
  exact ⟨by rw [h5]; exact to_u16_of_range _ hx0 hx1,
    by rw [h6]; exact to_u16_of_range _ hy0 hy1, h3, h4, h1, h2⟩

/-- An instance of the round trip: the 320 x 480 baseline with both offsets set
to 5 and 20, mask `SWITCH_XY`. -/
theorem swap_round_trip_in_range_witness :
    (ns2009_set_dir dir_bits_example
      (ns2009_set_dir dir_bits_example { baseline_320x480 with rtp_y_offs := 20 } 4)
      4).rtp_y_offs = 20 :=
  (swap_round_trip_in_range dir_bits_example { baseline_320x480 with rtp_y_offs := 20 } 4
    (by decide) (by decide)).2.1

/-- Single-call exchange when `rtp_x_offs` is a value a `u16` can hold. For every
configuration with `rtp_x_offs` in `[0, 65536)` and every mask with the swap flag,
one call of `ns2009_set_dir` exchanges the offsets, the scales and the display
resolutions between X and Y. -/
theorem swap_exchange_in_range (B : ns2009_dir_bits) (c : ns2009_data) (dir : Nat)
    (h : dir &&& B.NS2009_DIR_SWITCH_XY ≠ 0)
    (hx0 : 0 ≤ c.rtp_x_offs) (hx1 : c.rtp_x_offs < 65536) :
    (ns2009_set_dir B c dir).rtp_x_offs = c.rtp_y_offs ∧
    (ns2009_set_dir B c dir).rtp_y_offs = c.rtp_x_offs ∧
    (ns2009_set_dir B c dir).rtp_x_sc = c.rtp_y_sc ∧
    (ns2009_set_dir B c dir).rtp_y_sc = c.rtp_x_sc ∧
    (ns2009_set_dir B c dir).tft_x_res = c.tft_y_res ∧
    (ns2009_set_dir B c dir).tft_y_res = c.tft_x_res := by
  obtain ⟨h1, h2, h3, h4, h5, h6⟩ := set_dir_swap_fields B c dir h
  exact ⟨h1, by rw [h2]; exact to_u16_of_range _ hx0 hx1, h3, h4, h5, h6⟩

/-- An instance of the single-call exchange: the 320 x 480 baseline (offsets 5 and
-20), mask `SWITCH_XY | INVERT_Y`, as in `ns2009_probe`. -/
theorem swap_exchange_in_range_witness :
    (ns2009_set_dir dir_bits_example baseline_320x480 6).rtp_x_offs = -20 ∧
    (ns2009_set_dir dir_bits_example baseline_320x480 6).rtp_y_offs = 5 :=
  ⟨(swap_exchange_in_range dir_bits_example baseline_320x480 6
      (by decide) (by decide) (by decide)).1,
   (swap_exchange_in_range dir_bits_example baseline_320x480 6
      (by decide) (by decide) (by decide)).2.1⟩

/-- C5 (as amended). For every configuration and bus, with `v` the byte read,
`base` the specification's pre-offset value and `S` the stored `float` scale of
value `s`: whenever the resolution fits a `u16`, `base + O` lies in `[0, 65536)`,
the scale is finite and non-negative and the exact product `(base + O) * s` is at
most 65535, `__ns2009_read_x` returns `q` truncated toward zero (not rounded to
nearest), where `q` is the `float` product of `base + O` and `S`, equal to the
exact product up to binary32 rounding; and `__ns2009_read_y` does the same over
the Y fields. -/
theorem C5_readers_truncate_float_product (c : ns2009_data) (bus : Nat → Nat) :
    (∀ s : ℚ,
      c.tft_x_res < 65536 →
      0 ≤ spec_base (bus 0xC0 % 256) c.tft_x_res c.res.toNat c.invert_x + c.rtp_x_offs →
      spec_base (bus 0xC0 % 256) c.tft_x_res c.res.toNat c.invert_x + c.rtp_x_offs < 65536 →
      c.rtp_x_sc.toRat = some s → 0 ≤ s →
      ((spec_base (bus 0xC0 % 256) c.tft_x_res c.res.toNat c.invert_x + c.rtp_x_offs : Int) : ℚ) * s
        ≤ 65535 →
      ∃ q : ℚ,
        (float.mul
          (float.ofInt (spec_base (bus 0xC0 % 256) c.tft_x_res c.res.toNat c.invert_x + c.rtp_x_offs))
          c.rtp_x_sc).toRat = some q ∧
        __ns2009_read_x c bus = some ⌊q⌋.toNat ∧
        |q - ((spec_base (bus 0xC0 % 256) c.tft_x_res c.res.toNat c.invert_x
                + c.rtp_x_offs : Int) : ℚ) * s|
          ≤ max (((spec_base (bus 0xC0 % 256) c.tft_x_res c.res.toNat c.invert_x
                    + c.rtp_x_offs : Int) : ℚ) * s / 2 ^ 24) (1 / 2 ^ 150)) ∧
    (∀ s : ℚ,
      c.tft_y_res < 65536 →
      0 ≤ spec_base (bus 0xD0 % 256) c.tft_y_res c.res.toNat c.invert_y + c.rtp_y_offs →
      spec_base (bus 0xD0 % 256) c.tft_y_res c.res.toNat c.invert_y + c.rtp_y_offs < 65536 →
      c.rtp_y_sc.toRat = some s → 0 ≤ s →
      ((spec_base (bus 0xD0 % 256) c.tft_y_res c.res.toNat c.invert_y + c.rtp_y_offs : Int) : ℚ) * s
        ≤ 65535 →
      ∃ q : ℚ,
        (float.mul
          (float.ofInt (spec_base (bus 0xD0 % 256) c.tft_y_res c.res.toNat c.invert_y + c.rtp_y_offs))
          c.rtp_y_sc).toRat = some q ∧
        __ns2009_read_y c bus = some ⌊q⌋.toNat ∧
        |q - ((spec_base (bus 0xD0 % 256) c.tft_y_res c.res.toNat c.invert_y
                + c.rtp_y_offs : Int) : ℚ) * s|
          ≤ max (((spec_base (bus 0xD0 % 256) c.tft_y_res c.res.toNat c.invert_y
                    + c.rtp_y_offs : Int) : ℚ) * s / 2 ^ 24) (1 / 2 ^ 150)) := by
  constructor
  · intro s hR h0 h1 hS hs0 hp
    have hb := read_x_base_eq c (bus 0xC0 % 256) (Nat.mod_lt _ (by decide)) hR
    unfold __ns2009_read_x read_x_offs ns2009_read_reg NS2009_CMD_READ_X
    simp only []
    rw [hb]
    exact scale_truncates _ c.rtp_x_sc s h0 h1 hS hs0 hp
  · intro s hR h0 h1 hS hs0 hp
    have hb := read_y_base_eq c (bus 0xD0 % 256) (Nat.mod_lt _ (by decide)) hR
    unfold __ns2009_read_y read_y_offs ns2009_read_reg NS2009_CMD_READ_Y
    simp only []
    rw [hb]
    exact scale_truncates _ c.rtp_y_sc s h0 h1 hS hs0 hp

/-- C5, an instance: the 320 x 480 baseline and a bus answering 207. The stored
scale has value `1617081/2097152`, and the X reader returns the integral part of
the `float` product of 263 with it. -/
theorem C5_readers_truncate_float_product_witness :
    ∃ q : ℚ,
      (float.mul
        (float.ofInt (spec_base ((fun _ => 207) 0xC0 % 256) baseline_320x480.tft_x_res
          baseline_320x480.res.toNat baseline_320x480.invert_x + baseline_320x480.rtp_x_offs))
        baseline_320x480.rtp_x_sc).toRat = some q ∧
      __ns2009_read_x baseline_320x480 (fun _ => 207) = some ⌊q⌋.toNat ∧
      |q - ((spec_base ((fun _ => 207) 0xC0 % 256) baseline_320x480.tft_x_res
              baseline_320x480.res.toNat baseline_320x480.invert_x
            + baseline_320x480.rtp_x_offs : Int) : ℚ) * (1617081 / 2097152)|
        ≤ max (((spec_base ((fun _ => 207) 0xC0 % 256) baseline_320x480.tft_x_res
              baseline_320x480.res.toNat baseline_320x480.invert_x
            + baseline_320x480.rtp_x_offs : Int) : ℚ) * (1617081 / 2097152) / 2 ^ 24)
            (1 / 2 ^ 150) :=
  (C5_readers_truncate_float_product baseline_320x480 (fun _ => 207)).1
    (1617081 / 2097152)
    (by decide) (by decide) (by decide)
    (by
      rw [show baseline_320x480.rtp_x_sc = float.finite false 12936648 (-24) from by decide]
      norm_num [float.toRat])
    (by norm_num)
    (by
      rw [show spec_base ((fun _ => 207) 0xC0 % 256) baseline_320x480.tft_x_res
            baseline_320x480.res.toNat baseline_320x480.invert_x
            + baseline_320x480.rtp_x_offs = 263 from by decide]
      norm_num)

/-- C5 as stated fails: on the 320 x 480 baseline (`tft_x_res = 320`, 8 bits,
`invert_x = false`, `rtp_x_offs = 5`, scale of value `1617081/2097152`) and the
raw sample 207, `__ns2009_read_x` returns 202 while
`round_to_integer((base + O) * S)` is 203, both for the stored scale and for the
exact ratio `320/415`. -/
theorem C5_counterexample :
    __ns2009_read_x baseline_320x480 (fun _ => 207) = some 202 ∧
    baseline_320x480.rtp_x_sc.toRat = some (1617081 / 2097152) ∧
    spec_calibration 207 baseline_320x480.tft_x_res baseline_320x480.res.toNat
      baseline_320x480.invert_x baseline_320x480.rtp_x_offs (1617081 / 2097152) = 203 ∧
    spec_calibration 207 320 8 false 5 (320 / 415) = 203 := by
  have hb : spec_base 207 baseline_320x480.tft_x_res baseline_320x480.res.toNat
      baseline_320x480.invert_x + baseline_320x480.rtp_x_offs = 263 := by decide
  have hb' : spec_base 207 320 8 false + 5 = 263 := by decide
  refine ⟨by decide, ?_, ?_, ?_⟩
  · rw [show baseline_320x480.rtp_x_sc = float.finite false 12936648 (-24) from by decide]
    norm_num [float.toRat]
  · unfold spec_calibration
    rw [hb, round_eq, Int.floor_eq_iff]
    norm_num
  · unfold spec_calibration
    rw [hb', round_eq, Int.floor_eq_iff]
    norm_num

/-- C6. In every configuration with `tft_x_res = 320`, `rtp_x_res = 415`, the scale
`rtp_x_sc` computed as the `float` quotient of the two, 8-bit samples,
`invert_x = false` and `rtp_x_offs = 5`, a raw sample of 207 on command `0xC0`
makes the X reader hold 258 after normalisation and 263 after the offset, and
return exactly 202. -/
theorem C6_worked_scenario (c : ns2009_data) (bus : Nat → Nat)
    (hR : c.tft_x_res = 320) (hP : c.rtp_x_res = 415)
    (hS : c.rtp_x_sc = float.div (float.ofInt c.tft_x_res) (float.ofInt c.rtp_x_res))
    (hres : c.res = ns2009_res_t.NS2009_RESOLUTION_8BIT)
    (hinv : c.invert_x = false) (hO : c.rtp_x_offs = 5) (hv : bus 0xC0 = 207) :
    read_x_base c 207 = 258 ∧ read_x_offs c 207 = 263 ∧ __ns2009_read_x c bus = some 202 := by
  have h1 : read_x_base c 207 = 258 := by
    unfold read_x_base
    rw [hR, hres, hinv]
    decide
  have h2 : read_x_offs c 207 = 263 := by
    unfold read_x_offs
    rw [h1, hO]
    decide
  refine ⟨h1, h2, ?_⟩
  unfold __ns2009_read_x ns2009_read_reg NS2009_CMD_READ_X
  simp only []
  rw [hv, show (207 % 256 : Nat) = 207 from rfl, h2, hS, hR, hP]
  decide

/-- C6, an instance: the 320 x 480 baseline of `ns2009_probe` and a bus answering
207 to every command. -/
theorem C6_worked_scenario_witness :
    read_x_base baseline_320x480 207 = 258 ∧ read_x_offs baseline_320x480 207 = 263 ∧
    __ns2009_read_x baseline_320x480 (fun _ => 207) = some 202 :=
  C6_worked_scenario baseline_320x480 (fun _ => 207)
    (by decide) (by decide) (by decide) (by decide) (by decide) (by decide) rfl

/-- C7. After `ns2009_set_dir(dir)` the invert flags are a function of the mask
alone: two arbitrary prior states give the same flags; without the swap flag
`invert_x` is the mask's invert-X bit and `invert_y` its invert-Y bit; with the
swap flag `invert_x` is the mask's invert-Y bit and `invert_y` its invert-X
bit. -/
theorem C7_invert_flags_from_mask (B : ns2009_dir_bits) (c c' : ns2009_data) (dir : Nat) :
    ((ns2009_set_dir B c dir).invert_x = (ns2009_set_dir B c' dir).invert_x ∧
     (ns2009_set_dir B c dir).invert_y = (ns2009_set_dir B c' dir).invert_y) ∧
    (dir &&& B.NS2009_DIR_SWITCH_XY = 0 →
      (ns2009_set_dir B c dir).invert_x = decide (dir &&& B.NS2009_DIR_INVERT_X ≠ 0) ∧
      (ns2009_set_dir B c dir).invert_y = decide (dir &&& B.NS2009_DIR_INVERT_Y ≠ 0)) ∧
    (dir &&& B.NS2009_DIR_SWITCH_XY ≠ 0 →
      (ns2009_set_dir B c dir).invert_x = decide (dir &&& B.NS2009_DIR_INVERT_Y ≠ 0) ∧
      (ns2009_set_dir B c dir).invert_y = decide (dir &&& B.NS2009_DIR_INVERT_X ≠ 0)) := by
  unfold ns2009_set_dir
  by_cases h : dir &&& B.NS2009_DIR_SWITCH_XY = 0
  · rw [set_dir_noswap B c dir h, set_dir_noswap B c' dir h]
    simp [h]
  · rw [set_dir_swap B c dir h, set_dir_swap B c' dir h]
    simp [h]

/-- C7, an instance: the mask `SWITCH_XY | INVERT_Y` applied to the 320 x 480
baseline sets `invert_x` and clears `invert_y`. -/
theorem C7_invert_flags_from_mask_witness :
    (6 : Nat) &&& dir_bits_example.NS2009_DIR_SWITCH_XY ≠ 0 ∧
    (ns2009_set_dir dir_bits_example baseline_320x480 6).invert_x
      = decide ((6 : Nat) &&& dir_bits_example.NS2009_DIR_INVERT_Y ≠ 0) ∧
    (ns2009_set_dir dir_bits_example baseline_320x480 6).invert_y
      = decide ((6 : Nat) &&& dir_bits_example.NS2009_DIR_INVERT_X ≠ 0) :=
  ⟨by decide,
   (C7_invert_flags_from_mask dir_bits_example baseline_320x480 baseline_320x480 6).2.2
     (by decide)⟩

/-- C8 (as amended). When `ns2009_set_dir` is called with the swap flag on a
configuration in which `invert_y` was true and `invert_x` false, the pair after
the call is the exchange of the flags newly decoded from the mask: `invert_x` is
the mask's invert-Y bit and `invert_y` its invert-X bit. The pair is
`(true, false)` exactly for the masks with the invert-Y bit and without the
invert-X bit. -/
theorem C8_swap_exchanges_decoded_flags (B : ns2009_dir_bits) (c : ns2009_data) (dir : Nat)
    (hx : c.invert_x = false) (hy : c.invert_y = true)
    (h : dir &&& B.NS2009_DIR_SWITCH_XY ≠ 0) :
    (ns2009_set_dir B c dir).invert_x = decide (dir &&& B.NS2009_DIR_INVERT_Y ≠ 0) ∧
    (ns2009_set_dir B c dir).invert_y = decide (dir &&& B.NS2009_DIR_INVERT_X ≠ 0) ∧
    (((ns2009_set_dir B c dir).invert_x = true ∧ (ns2009_set_dir B c dir).invert_y = false) ↔
      (dir &&& B.NS2009_DIR_INVERT_Y ≠ 0 ∧ dir &&& B.NS2009_DIR_INVERT_X = 0)) := by
  have _hx := hx
  have _hy := hy
  unfold ns2009_set_dir
  rw [set_dir_swap B c dir h]
  simp

/-- C8, an instance: `invert_y` set and `invert_x` clear before the call, mask
`SWITCH_XY | INVERT_X`. -/
theorem C8_swap_exchanges_decoded_flags_witness :
    (ns2009_set_dir dir_bits_example { baseline_320x480 with invert_y := true } 5).invert_x
      = decide ((5 : Nat) &&& dir_bits_example.NS2009_DIR_INVERT_Y ≠ 0) ∧
    (ns2009_set_dir dir_bits_example { baseline_320x480 with invert_y := true } 5).invert_y
      = decide ((5 : Nat) &&& dir_bits_example.NS2009_DIR_INVERT_X ≠ 0) ∧
    (((ns2009_set_dir dir_bits_example { baseline_320x480 with invert_y := true } 5).invert_x = true ∧
      (ns2009_set_dir dir_bits_example { baseline_320x480 with invert_y := true } 5).invert_y = false) ↔
      ((5 : Nat) &&& dir_bits_example.NS2009_DIR_INVERT_Y ≠ 0 ∧
        (5 : Nat) &&& dir_bits_example.NS2009_DIR_INVERT_X = 0)) :=
  C8_swap_exchanges_decoded_flags dir_bits_example { baseline_320x480 with invert_y := true } 5
    (by decide) (by decide) (by decide)

/-- C8 as stated fails: with `invert_x = false` and `invert_y = true` before the
call, the mask `SWITCH_XY | INVERT_X` leaves `invert_x = false` and
`invert_y = true`, which is the exchange of the decoded flags and not the
exchange `(true, false)` of the values held before the call. -/
theorem C8_counterexample :
    ({ baseline_320x480 with invert_y := true } : ns2009_data).invert_x = false ∧
    ({ baseline_320x480 with invert_y := true } : ns2009_data).invert_y = true ∧
    (5 : Nat) &&& dir_bits_example.NS2009_DIR_SWITCH_XY ≠ 0 ∧
    (ns2009_set_dir dir_bits_example { baseline_320x480 with invert_y := true } 5).invert_x
      = false ∧
    (ns2009_set_dir dir_bits_example { baseline_320x480 with invert_y := true } 5).invert_y
      = true := by
  decide

/-- C9. For every configuration and every mask without the swap flag,
`ns2009_set_dir` binds `read_x` to `__ns2009_read_x` and `read_y` to
`__ns2009_read_y` and leaves the display resolutions, the offsets, the scales,
the panel resolutions and the sample width unchanged. -/
theorem C9_no_swap_frame (B : ns2009_dir_bits) (c : ns2009_data) (dir : Nat)
    (h : dir &&& B.NS2009_DIR_SWITCH_XY = 0) :
    (ns2009_set_dir B c dir).read_x = some ns2009_read_fn.__ns2009_read_x ∧
    (ns2009_set_dir B c dir).read_y = some ns2009_read_fn.__ns2009_read_y ∧
    (ns2009_set_dir B c dir).tft_x_res = c.tft_x_res ∧
    (ns2009_set_dir B c dir).tft_y_res = c.tft_y_res ∧
    (ns2009_set_dir B c dir).rtp_x_offs = c.rtp_x_offs ∧
    (ns2009_set_dir B c dir).rtp_y_offs = c.rtp_y_offs ∧
    (ns2009_set_dir B c dir).rtp_x_sc = c.rtp_x_sc ∧
    (ns2009_set_dir B c dir).rtp_y_sc = c.rtp_y_sc ∧
    (ns2009_set_dir B c dir).rtp_x_res = c.rtp_x_res ∧
    (ns2009_set_dir B c dir).rtp_y_res = c.rtp_y_res ∧
    (ns2009_set_dir B c dir).res = c.res := by
  unfold ns2009_set_dir
  rw [set_dir_noswap B c dir h]
  simp

/-- C9, an instance: the mask `INVERT_X | INVERT_Y` on the state left by
`ns2009_driver_init` for a 320 x 480 display. -/
theorem C9_no_swap_frame_witness :
    (ns2009_set_dir dir_bits_example (ns2009_driver_init dir_bits_example 320 480).1 3).read_x
      = some ns2009_read_fn.__ns2009_read_x ∧
    (ns2009_set_dir dir_bits_example (ns2009_driver_init dir_bits_example 320 480).1 3).rtp_x_offs
      = -20 :=
  ⟨(C9_no_swap_frame dir_bits_example (ns2009_driver_init dir_bits_example 320 480).1 3
      (by decide)).1,
   by
    rw [(C9_no_swap_frame dir_bits_example (ns2009_driver_init dir_bits_example 320 480).1 3
      (by decide)).2.2.2.2.1]
    decide⟩

/-- C10. After `ns2009_set_dir(dir)`, `switch_xy` is the mask's swap bit and the
stored orientation is the mask; `read_x` points to `__ns2009_read_y` and `read_y`
to `__ns2009_read_x` if and only if the mask has the swap flag. With the flag,
`ns2009_read_x` reads command `0xD0` and applies the Y-slot parameters and
`ns2009_read_y` reads command `0xC0` and applies the X-slot parameters; without
it `ns2009_read_x` reads `0xC0` with the X slot and `ns2009_read_y` reads `0xD0`
with the Y slot. -/
theorem C10_axis_binding_follows_swap_flag (B : ns2009_dir_bits) (c : ns2009_data)
    (dir : Nat) (bus : Nat → Nat) :
    (ns2009_set_dir B c dir).switch_xy = decide (dir &&& B.NS2009_DIR_SWITCH_XY ≠ 0) ∧
    (ns2009_set_dir B c dir).dir = dir ∧
    ((ns2009_set_dir B c dir).read_x = some ns2009_read_fn.__ns2009_read_y ↔
      dir &&& B.NS2009_DIR_SWITCH_XY ≠ 0) ∧
    ((ns2009_set_dir B c dir).read_y = some ns2009_read_fn.__ns2009_read_x ↔
      dir &&& B.NS2009_DIR_SWITCH_XY ≠ 0) ∧
    (dir &&& B.NS2009_DIR_SWITCH_XY ≠ 0 →
      ns2009_read_x (ns2009_set_dir B c dir) bus = __ns2009_read_y (ns2009_set_dir B c dir) bus ∧
      ns2009_read_y (ns2009_set_dir B c dir) bus = __ns2009_read_x (ns2009_set_dir B c dir) bus ∧
      ns2009_read_x (ns2009_set_dir B c dir) bus =
        float.toU16 (float.mul
          (float.ofInt (read_y_offs (ns2009_set_dir B c dir) (bus 0xD0 % 256)))
          (ns2009_set_dir B c dir).rtp_y_sc) ∧
      ns2009_read_y (ns2009_set_dir B c dir) bus =
        float.toU16 (float.mul
          (float.ofInt (read_x_offs (ns2009_set_dir B c dir) (bus 0xC0 % 256)))
          (ns2009_set_dir B c dir).rtp_x_sc)) ∧
    (dir &&& B.NS2009_DIR_SWITCH_XY = 0 →
      ns2009_read_x (ns2009_set_dir B c dir) bus = __ns2009_read_x (ns2009_set_dir B c dir) bus ∧
      ns2009_read_y (ns2009_set_dir B c dir) bus = __ns2009_read_y (ns2009_set_dir B c dir) bus ∧
      ns2009_read_x (ns2009_set_dir B c dir) bus =
        float.toU16 (float.mul
          (float.ofInt (read_x_offs (ns2009_set_dir B c dir) (bus 0xC0 % 256)))
          (ns2009_set_dir B c dir).rtp_x_sc) ∧
      ns2009_read_y (ns2009_set_dir B c dir) bus =
        float.toU16 (float.mul
          (float.ofInt (read_y_offs (ns2009_set_dir B c dir) (bus 0xD0 % 256)))
          (ns2009_set_dir B c dir).rtp_y_sc)) := by
  by_cases h : dir &&& B.NS2009_DIR_SWITCH_XY = 0
  · have hs := set_dir_noswap B c dir h
    have hrx : (ns2009_set_dir B c dir).read_x = some ns2009_read_fn.__ns2009_read_x := by
      unfold ns2009_set_dir; rw [hs]
    have hry : (ns2009_set_dir B c dir).read_y = some ns2009_read_fn.__ns2009_read_y := by
      unfold ns2009_set_dir; rw [hs]
    have hsw : (ns2009_set_dir B c dir).switch_xy = false := by
      unfold ns2009_set_dir; rw [hs]
    have hd : (ns2009_set_dir B c dir).dir = dir := by
      unfold ns2009_set_dir; rw [hs]
    refine ⟨by simp [hsw, h], hd, by simp [hrx, h], by simp [hry, h], fun hne => absurd h hne,
      fun _ => ?_⟩
    simp [ns2009_read_x, ns2009_read_y, hrx, hry, call_read_fn, __ns2009_read_x,
      __ns2009_read_y, ns2009_read_reg, NS2009_CMD_READ_X, NS2009_CMD_READ_Y]
  · have hs := set_dir_swap B c dir h
    have hrx : (ns2009_set_dir B c dir).read_x = some ns2009_read_fn.__ns2009_read_y := by
      unfold ns2009_set_dir; rw [hs]
    have hry : (ns2009_set_dir B c dir).read_y = some ns2009_read_fn.__ns2009_read_x := by
      unfold ns2009_set_dir; rw [hs]
    have hsw : (ns2009_set_dir B c dir).switch_xy = true := by
      unfold ns2009_set_dir; rw [hs]
    have hd : (ns2009_set_dir B c dir).dir = dir := by
      unfold ns2009_set_dir; rw [hs]
    refine ⟨by simp [hsw, h], hd, by simp [hrx, h], by simp [hry, h], fun _ => ?_,
      fun he => absurd he h⟩
    simp [ns2009_read_x, ns2009_read_y, hrx, hry, call_read_fn, __ns2009_read_x,
      __ns2009_read_y, ns2009_read_reg, NS2009_CMD_READ_X, NS2009_CMD_READ_Y]

/-- C10, an instance: after the mask `SWITCH_XY` on the 320 x 480 baseline the
logical X read is the physical Y read, for a bus answering 207 to every
command. -/
theorem C10_axis_binding_follows_swap_flag_witness :
    (4 : Nat) &&& dir_bits_example.NS2009_DIR_SWITCH_XY ≠ 0 ∧
    ns2009_read_x (ns2009_set_dir dir_bits_example baseline_320x480 4) (fun _ => 207)
      = __ns2009_read_y (ns2009_set_dir dir_bits_example baseline_320x480 4) (fun _ => 207) :=
  ⟨by decide,
   ((C10_axis_binding_follows_swap_flag dir_bits_example baseline_320x480 4
      (fun _ => 207)).2.2.2.2.1 (by decide)).1⟩

/-- `ns2009_set_dir` never writes the sample width. -/
theorem set_dir_res (B : ns2009_dir_bits) (c : ns2009_data) (dir : Nat) :
    (ns2009_set_dir B c dir).res = c.res := by
  unfold ns2009_set_dir
  by_cases h : dir &&& B.NS2009_DIR_SWITCH_XY = 0
  · rw [set_dir_noswap B c dir h]
  · rw [set_dir_swap B c dir h]

/-- A sequence of `ns2009_set_dir` calls never writes the sample width. -/
theorem set_dir_seq_res (B : ns2009_dir_bits) (dirs : List Nat) :
    ∀ c : ns2009_data, (set_dir_seq B c dirs).res = c.res := by
  induction dirs with
  | nil => intro c; rfl
  | cons dir dirs ih =>
    intro c
    have hseq : set_dir_seq B c (dir :: dirs) = set_dir_seq B (ns2009_set_dir B c dir) dirs := rfl
    rw [hseq, ih, set_dir_res]

/-- C11. In every configuration reached from `ns2009_driver_init` by any finite
sequence of `ns2009_set_dir` calls the sample width is still 8 bits, the
normalisation divisor `1 << res` is 256 and hence not zero, and for every raw
byte the integer stage of the X reader and of the Y reader divides by exactly
that divisor. -/
theorem C11_divisor_is_256_when_reachable (B : ns2009_dir_bits) (XR YR : Nat)
    (dirs : List Nat) (v : Nat) :
    (set_dir_seq B (ns2009_driver_init B XR YR).1 dirs).res
      = ns2009_res_t.NS2009_RESOLUTION_8BIT ∧
    norm_divisor (set_dir_seq B (ns2009_driver_init B XR YR).1 dirs) = 256 ∧
    norm_divisor (set_dir_seq B (ns2009_driver_init B XR YR).1 dirs) ≠ 0 ∧
    read_x_base (set_dir_seq B (ns2009_driver_init B XR YR).1 dirs) v =
      (if (set_dir_seq B (ns2009_driver_init B XR YR).1 dirs).invert_x then
        to_u16 (((set_dir_seq B (ns2009_driver_init B XR YR).1 dirs).tft_x_res : Int)
          - ((v : Int) * ((set_dir_seq B (ns2009_driver_init B XR YR).1 dirs).tft_x_res : Int))
            / (norm_divisor (set_dir_seq B (ns2009_driver_init B XR YR).1 dirs) : Int))
      else
        to_u16 (((v : Int) * ((set_dir_seq B (ns2009_driver_init B XR YR).1 dirs).tft_x_res : Int))
            / (norm_divisor (set_dir_seq B (ns2009_driver_init B XR YR).1 dirs) : Int))) ∧
    read_y_base (set_dir_seq B (ns2009_driver_init B XR YR).1 dirs) v =
      (if (set_dir_seq B (ns2009_driver_init B XR YR).1 dirs).invert_y then
        to_u16 (((set_dir_seq B (ns2009_driver_init B XR YR).1 dirs).tft_y_res : Int)
          - ((v : Int) * ((set_dir_seq B (ns2009_driver_init B XR YR).1 dirs).tft_y_res : Int))
            / (norm_divisor (set_dir_seq B (ns2009_driver_init B XR YR).1 dirs) : Int))
      else
        to_u16 (((v : Int) * ((set_dir_seq B (ns2009_driver_init B XR YR).1 dirs).tft_y_res : Int))
            / (norm_divisor (set_dir_seq B (ns2009_driver_init B XR YR).1 dirs) : Int))) := by
  have hinit : (ns2009_driver_init B XR YR).1.res = ns2009_res_t.NS2009_RESOLUTION_8BIT := by
    unfold ns2009_driver_init ns2009_probe ns2009_hw_init
    simp only []
    rw [← ns2009_set_dir, set_dir_res]
    rfl
  have hres := (set_dir_seq_res B dirs (ns2009_driver_init B XR YR).1).trans hinit
  have hdiv : norm_divisor (set_dir_seq B (ns2009_driver_init B XR YR).1 dirs) = 256 := by
    unfold norm_divisor
    rw [hres]
    rfl
  refine ⟨hres, hdiv, ?_, rfl, rfl⟩
  rw [hdiv]
  decide

/-- C13. For every level of the press line, `ns2009_is_pressed` returns true
exactly when `gpio_get` reads the IRQ pin low and false exactly when it reads it
high, and the state after the call is the state before it; after
`ns2009_driver_init` the pin read is `NS2009_PIN_IRQ` (21). -/
theorem C13_press_detector_active_low (g : ns2009_data) (gpio_get : Nat → Bool)
    (B : ns2009_dir_bits) (XR YR : Nat) :
    (ns2009_is_pressed g gpio_get = true ↔ gpio_get g.irq_pin = false) ∧
    (ns2009_is_pressed g gpio_get = false ↔ gpio_get g.irq_pin = true) ∧
    (ns2009_is_pressed_state g gpio_get).1 = g ∧
    (ns2009_is_pressed_state g gpio_get).2 = ns2009_is_pressed g gpio_get ∧
    (ns2009_driver_init B XR YR).1.irq_pin = 21 ∧
    ns2009_is_pressed (ns2009_driver_init B XR YR).1 gpio_get = !gpio_get 21 := by
  have hpin : (ns2009_driver_init B XR YR).1.irq_pin = 21 := by
    unfold ns2009_driver_init ns2009_probe ns2009_hw_init
    simp only []
    rw [← ns2009_set_dir]
    unfold ns2009_set_dir
    by_cases h : (ns2009_probe_baseline B XR YR g_ns2009_data).dir
        &&& B.NS2009_DIR_SWITCH_XY = 0
    · rw [set_dir_noswap B _ _ h]; rfl
    · rw [set_dir_swap B _ _ h]; rfl
  refine ⟨?_, ?_, rfl, rfl, hpin, ?_⟩
  · unfold ns2009_is_pressed __ns2009_is_pressed
    cases gpio_get g.irq_pin <;> simp
  · unfold ns2009_is_pressed __ns2009_is_pressed
    cases gpio_get g.irq_pin <;> simp
  · unfold ns2009_is_pressed __ns2009_is_pressed
    rw [hpin]

/-- With the sticky bit set, the rounded quotient, scaled back, is within half a
unit of the last kept place of `m + δ`, for the unknown tail `0 < δ < 1`. -/
theorem roundShift_close_sticky (m shift : Nat) (hs : 0 < shift) (δ : ℚ)
    (hδ0 : 0 < δ) (hδ1 : δ < 1) :
    |((float.roundShift m shift true : Nat) : ℚ) * 2 ^ shift - ((m : ℚ) + δ)|
      ≤ 2 ^ (shift - 1) := by
  have hpow : 2 ^ shift = 2 * 2 ^ (shift - 1) := by
    obtain ⟨k, rfl⟩ : ∃ k, shift = k + 1 := ⟨shift - 1, by omega⟩
    simp [pow_succ, Nat.mul_comm]
  have hdm := Nat.div_add_mod m (2 ^ shift)
  have hr := Nat.mod_lt m (show 0 < 2 ^ shift by positivity)
  unfold float.roundShift
  simp only [true_or, and_true]
  generalize m / 2 ^ shift = q at *
  generalize m % 2 ^ shift = r at *
  have hhalf : (2 : ℚ) ^ (shift - 1) = ((2 ^ (shift - 1) : Nat) : ℚ) := by push_cast; rfl
  have hpq' : (2 : ℚ) ^ shift = 2 * ((2 ^ (shift - 1) : Nat) : ℚ) := by
    have : ((2 ^ shift : Nat) : ℚ) = ((2 * 2 ^ (shift - 1) : Nat) : ℚ) := by rw [← hpow]
    push_cast at this ⊢
    exact this
  rw [hhalf, hpq']
  generalize 2 ^ (shift - 1) = half at *
  have hmq : (m : ℚ) = 2 * (half : ℚ) * (q : ℚ) + (r : ℚ) := by
    have : m = 2 * half * q + r := by rw [← hdm, hpow]
    exact_mod_cast this
  rw [hmq]
  have hrq : (r : ℚ) + 1 ≤ 2 * (half : ℚ) := by
    have : r + 1 ≤ 2 * half := by omega
    exact_mod_cast this
  have hr0 : (0 : ℚ) ≤ (r : ℚ) := by positivity
  split
  · rename_i hup
    have hge : half ≤ r := by
      rcases hup with h | h <;> omega
    have hgeq : (half : ℚ) ≤ (r : ℚ) := by exact_mod_cast hge
    push_cast
    rw [abs_le]
    constructor <;> nlinarith
  · rename_i hup
    have hle : r + 1 ≤ half := by
      by_contra hlt
      have : half ≤ r := by omega
      rcases Nat.lt_or_eq_of_le this with h | h
      · exact hup (Or.inl h)
      · exact hup (Or.inr h.symm)
    have hleq : (r : ℚ) + 1 ≤ (half : ℚ) := by exact_mod_cast hle
    rw [abs_le]
    constructor <;> nlinarith

/-- Rounding with the sticky bit: for a significand of at least 26 bits followed
by an unknown tail `0 < δ < 1`, the result is a packed pair whose magnitude is
within `2^-24` of `(m + δ) * 2^e` (within `2^-150` in the subnormal range). -/
theorem round_core_sticky (s : Bool) (m : Nat) (e : Int) (δ : ℚ)
    (hm : 2 ^ 25 ≤ m) (hδ0 : 0 < δ) (hδ1 : δ < 1) :
    ∃ (Q : Nat) (e' : Int), float.round s m e true = float.pack s Q e' ∧
      |(Q : ℚ) * (2 : ℚ) ^ e' - ((m : ℚ) + δ) * (2 : ℚ) ^ e|
        ≤ max (((m : ℚ) + δ) * (2 : ℚ) ^ e / 2 ^ 24) (1 / 2 ^ 150) := by
  have hpe : (0 : ℚ) < (2 : ℚ) ^ e := zpow_pos (by norm_num) e
  have hbl : 26 ≤ bitlen m := by
    by_contra hlt
    have h1 : bitlen m ≤ 25 := by omega
    have h2 : 2 ^ bitlen m ≤ 2 ^ 25 := Nat.pow_le_pow_right (by decide) h1
    have h3 := bitlen_lt m
    omega
  unfold float.round
  have hle : ¬ (max (e + (bitlen m : Int) - 24) (-149) ≤ e) := by omega
  obtain ⟨shift, hk⟩ : ∃ shift : Nat,
      (max (e + (bitlen m : Int) - 24) (-149) - e).toNat = shift := ⟨_, rfl⟩
  have hkpos : 0 < shift := by omega
  have he' : max (e + (bitlen m : Int) - 24) (-149) = e + (shift : Int) := by omega
  refine ⟨float.roundShift m shift true, e + (shift : Int), ?_, ?_⟩
  · have hle' : ¬ (e + (shift : Int) ≤ e) := by omega
    have hks : (e + (shift : Int) - e).toNat = shift := by omega
    simp only [he', hle', if_false, hks]
  · have hclose := roundShift_close_sticky m shift hkpos δ hδ0 hδ1
    have hsplit : (2 : ℚ) ^ (e + (shift : Int)) = (2 : ℚ) ^ shift * (2 : ℚ) ^ e := by
      rw [zpow_add₀ (by norm_num), zpow_natCast, mul_comm]
    rw [hsplit]
    generalize ((float.roundShift m shift true : Nat) : ℚ) = Q at hclose ⊢
    have hfact : Q * ((2 : ℚ) ^ shift * (2 : ℚ) ^ e) - ((m : ℚ) + δ) * (2 : ℚ) ^ e
        = (Q * 2 ^ shift - ((m : ℚ) + δ)) * (2 : ℚ) ^ e := by ring
    rw [hfact, abs_mul, abs_of_pos hpe]
    have hb : |Q * 2 ^ shift - ((m : ℚ) + δ)| * (2 : ℚ) ^ e
        ≤ (2 : ℚ) ^ (shift - 1) * (2 : ℚ) ^ e :=
      mul_le_mul_of_nonneg_right hclose hpe.le
    refine le_trans hb ?_
    by_cases hcase : (-149 : Int) ≤ e + (bitlen m : Int) - 24
    · apply le_max_of_le_left
      have hL : bitlen m = shift + 24 := by omega
      have hm0 : m ≠ 0 := by omega
      have hbl2 := bitlen_le m hm0
      rw [hL] at hbl2
      have hbq : (2 : ℚ) ^ (shift + 24) ≤ 2 * (m : ℚ) := by exact_mod_cast hbl2
      have hsh : (2 : ℚ) ^ shift = 2 * (2 : ℚ) ^ (shift - 1) := by
        obtain ⟨k, rfl⟩ : ∃ k, shift = k + 1 := ⟨shift - 1, by omega⟩
        simp [pow_succ, mul_comm]
      rw [pow_add, hsh] at hbq
      have hx : (2 : ℚ) ^ (shift - 1) ≤ ((m : ℚ) + δ) / 2 ^ 24 := by
        rw [le_div_iff₀ (by positivity)]
        linarith
      calc (2 : ℚ) ^ (shift - 1) * (2 : ℚ) ^ e ≤ ((m : ℚ) + δ) / 2 ^ 24 * (2 : ℚ) ^ e :=
            mul_le_mul_of_nonneg_right hx hpe.le
        _ = ((m : ℚ) + δ) * (2 : ℚ) ^ e / 2 ^ 24 := by ring
    · apply le_max_of_le_right
      have hee : e = -149 - (shift : Int) := by omega
      have h1 : (2 : ℚ) ^ (shift - 1) * (2 : ℚ) ^ e = (2 : ℚ) ^ (-150 : Int) := by
        rw [← zpow_natCast, ← zpow_add₀ (by norm_num)]
        congr 1
        omega
      rw [h1]
      norm_num [zpow_neg]

/-- Accuracy of the `float` quotient of two integers below `2^24`, the divisor
positive: the quotient is finite, non-negative, and equal to `a / b` up to
binary32 rounding. -/
theorem div_ofInt_accuracy (a b : Nat) (ha : a < 2 ^ 24) (hb0 : 0 < b) (hb : b < 2 ^ 24) :
    ∃ q : ℚ, (float.div (float.ofInt (a : Int)) (float.ofInt (b : Int))).toRat = some q ∧
      0 ≤ q ∧ |q - (a : ℚ) / (b : ℚ)| ≤ float_err ((a : ℚ) / (b : ℚ)) := by
  rw [ofInt_exact a ha, ofInt_exact b hb]
  have hbne : b ≠ 0 := by omega
  have hbq : (0 : ℚ) < (b : ℚ) := by exact_mod_cast hb0
  simp only [float.div, hbne, if_false, Bool.xor_false, sub_zero, zero_sub]
  generalize hk : bitlen b + 26 = k
  have hdm := Nat.div_add_mod (a * 2 ^ k) b
  have hrlt := Nat.mod_lt (a * 2 ^ k) hb0
  generalize hQ0 : a * 2 ^ k / b = Q0 at hdm ⊢
  generalize hr : a * 2 ^ k % b = r at hdm hrlt ⊢
  have hpk : (0 : ℚ) < (2 : ℚ) ^ k := by positivity
  have hzk : (2 : ℚ) ^ (-(k : Int)) = 1 / (2 : ℚ) ^ k := by
    rw [zpow_neg, zpow_natCast, one_div]
  -- the exact quotient, written with the integer quotient and the remainder
  have hexact : (a : ℚ) / (b : ℚ) = ((Q0 : ℚ) + (r : ℚ) / (b : ℚ)) * (2 : ℚ) ^ (-(k : Int)) := by
    have h1 : (a : ℚ) * 2 ^ k = (b : ℚ) * (Q0 : ℚ) + (r : ℚ) := by exact_mod_cast hdm.symm
    have h2 : (Q0 : ℚ) + (r : ℚ) / (b : ℚ) = (a : ℚ) * 2 ^ k / (b : ℚ) := by
      rw [h1]; field_simp; ring
    rw [hzk, h2]
    field_simp
    ring
  have hab : (a : ℚ) / (b : ℚ) < 2 ^ 24 := by
    rw [div_lt_iff₀ hbq]
    have h1 : (a : ℚ) < 2 ^ 24 := by exact_mod_cast ha
    have h2 : (1 : ℚ) ≤ (b : ℚ) := by exact_mod_cast hb0
    nlinarith
  have hab0 : (0 : ℚ) ≤ (a : ℚ) / (b : ℚ) := by positivity
  have herrlt : float_err ((a : ℚ) / (b : ℚ)) < 1 := by
    unfold float_err
    apply max_lt
    · rw [div_lt_iff₀ (by positivity)]
      linarith
    · norm_num
  -- both cases end the same way, from a packed pair close to the exact quotient
  have hfinish : ∀ (Q : Nat) (e' : Int) (f : float), f = float.pack false Q e' →
      |(Q : ℚ) * (2 : ℚ) ^ e' - (a : ℚ) / (b : ℚ)| ≤ float_err ((a : ℚ) / (b : ℚ)) →
      ∃ q : ℚ, f.toRat = some q ∧ 0 ≤ q ∧
        |q - (a : ℚ) / (b : ℚ)| ≤ float_err ((a : ℚ) / (b : ℚ)) := by
    intro Q e' f hf hclose
    have hpe' : (0 : ℚ) < (2 : ℚ) ^ e' := zpow_pos (by norm_num) e'
    have hup : (Q : ℚ) * (2 : ℚ) ^ e' < 2 ^ 128 := by
      have h1 := (abs_le.mp hclose).2
      have h2 : (Q : ℚ) * (2 : ℚ) ^ e' < 2 ^ 24 + 1 := by linarith
      have h3 : (2 : ℚ) ^ 24 + 1 ≤ 2 ^ 25 := by norm_num
      have h4 : (2 : ℚ) ^ 25 < 2 ^ 128 := pow_lt_pow_right₀ (by norm_num) (by norm_num)
      exact lt_of_lt_of_le h2 (le_trans h3 h4.le)
    rw [hf, pack_finite false Q e' hup]
    exact ⟨(Q : ℚ) * (2 : ℚ) ^ e', by simp [float.toRat],
      mul_nonneg (Nat.cast_nonneg Q) hpe'.le, hclose⟩
  by_cases hr0 : r = 0
  · subst hr0
    obtain ⟨Q, e', hround, hclose, _⟩ := round_core false Q0 (-(k : Int))
    have hval : (Q0 : ℚ) * (2 : ℚ) ^ (-(k : Int)) = (a : ℚ) / (b : ℚ) := by
      rw [hexact]; simp
    rw [hval] at hclose
    refine hfinish Q e' _ ?_ hclose
    simpa using hround
  · have ha0 : a ≠ 0 := by
      intro h0
      subst h0
      simp at hr
      exact hr0 hr.symm
    have hQ25 : 2 ^ 25 ≤ Q0 := by
      rw [← hQ0, Nat.le_div_iff_mul_le hb0]
      have h1 := bitlen_lt b
      have h2 : 2 ^ 25 * b ≤ 2 ^ 25 * 2 ^ bitlen b := Nat.mul_le_mul_left _ h1.le
      have h3 : 2 ^ 25 * 2 ^ bitlen b ≤ 2 ^ k := by
        rw [← hk, ← pow_add]
        exact Nat.pow_le_pow_right (by decide) (by omega)
      have h4 : 2 ^ k ≤ a * 2 ^ k := Nat.le_mul_of_pos_left _ (Nat.pos_of_ne_zero ha0)
      omega
    have hδ0 : (0 : ℚ) < (r : ℚ) / (b : ℚ) := by
      have : (0 : ℚ) < (r : ℚ) := by exact_mod_cast Nat.pos_of_ne_zero hr0
      positivity
    have hδ1 : (r : ℚ) / (b : ℚ) < 1 := by
      rw [div_lt_one hbq]
      exact_mod_cast hrlt
    obtain ⟨Q, e', hround, hclose⟩ :=
      round_core_sticky false Q0 (-(k : Int)) ((r : ℚ) / (b : ℚ)) hQ25 hδ0 hδ1
    rw [← hexact] at hclose
    refine hfinish Q e' _ ?_ hclose
    simpa [hr0] using hround

/-- Bitwise absorption, left operand. -/
theorem lor_land_left (a b : Nat) : (a ||| b) &&& a = a := by
  apply Nat.eq_of_testBit_eq
  intro i
  simp only [Nat.testBit_and, Nat.testBit_or]
  cases a.testBit i <;> cases b.testBit i <;> rfl

/-- Bitwise absorption, right operand. -/
theorem lor_land_right (a b : Nat) : (a ||| b) &&& b = b := by
  apply Nat.eq_of_testBit_eq
  intro i
  simp only [Nat.testBit_and, Nat.testBit_or]
  cases a.testBit i <;> cases b.testBit i <;> rfl

/-- C14. For a display resolution `(XR, YR)` that fits 16 bits and flag bits of
which `SWITCH_XY` and `INVERT_Y` are non-zero and share no bit with `INVERT_X`,
`ns2009_driver_init` returns 0 and leaves exactly the result of
`ns2009_set_dir(SWITCH_XY | INVERT_Y)` on the baseline configuration
(`tft = (XR, YR)`, `rtp res = (415, 285)`, offsets `(5, -20)`, scales the `float`
quotients `XR/415` and `YR/285`, 8-bit samples, invert flags clear): `switch_xy`
set, `invert_x` set, `invert_y` clear, `tft_x_res = YR`, `tft_y_res = XR`,
`rtp_x_offs = -20`, `rtp_y_offs = 5`, `rtp_x_sc = YR/285`, `rtp_y_sc = XR/415`,
`read_x` bound to `__ns2009_read_y` and `read_y` to `__ns2009_read_x`. The two
scales are finite, non-negative and equal to the exact ratios up to binary32
rounding. -/
theorem C14_state_after_driver_init (B : ns2009_dir_bits) (XR YR : Nat)
    (hXR : XR < 65536) (hYR : YR < 65536)
    (hS : B.NS2009_DIR_SWITCH_XY ≠ 0) (hY : B.NS2009_DIR_INVERT_Y ≠ 0)
    (hX : (B.NS2009_DIR_SWITCH_XY ||| B.NS2009_DIR_INVERT_Y) &&& B.NS2009_DIR_INVERT_X = 0) :
    ((ns2009_driver_init B XR YR).2 = 0 ∧
     (ns2009_driver_init B XR YR).1 =
      ns2009_set_dir B (ns2009_probe_baseline B XR YR g_ns2009_data)
        (B.NS2009_DIR_SWITCH_XY ||| B.NS2009_DIR_INVERT_Y)) ∧
    ((ns2009_probe_baseline B XR YR g_ns2009_data).tft_x_res = XR ∧
     (ns2009_probe_baseline B XR YR g_ns2009_data).tft_y_res = YR ∧
     (ns2009_probe_baseline B XR YR g_ns2009_data).rtp_x_res = 415 ∧
     (ns2009_probe_baseline B XR YR g_ns2009_data).rtp_y_res = 285 ∧
     (ns2009_probe_baseline B XR YR g_ns2009_data).rtp_x_offs = 5 ∧
     (ns2009_probe_baseline B XR YR g_ns2009_data).rtp_y_offs = -20 ∧
     (ns2009_probe_baseline B XR YR g_ns2009_data).rtp_x_sc
       = float.div (float.ofInt XR) (float.ofInt 415) ∧
     (ns2009_probe_baseline B XR YR g_ns2009_data).rtp_y_sc
       = float.div (float.ofInt YR) (float.ofInt 285) ∧
     (ns2009_probe_baseline B XR YR g_ns2009_data).res = ns2009_res_t.NS2009_RESOLUTION_8BIT ∧
     (ns2009_probe_baseline B XR YR g_ns2009_data).invert_x = false ∧
     (ns2009_probe_baseline B XR YR g_ns2009_data).invert_y = false) ∧
    ((ns2009_driver_init B XR YR).1.switch_xy = true ∧
     (ns2009_driver_init B XR YR).1.invert_x = true ∧
     (ns2009_driver_init B XR YR).1.invert_y = false ∧
     (ns2009_driver_init B XR YR).1.tft_x_res = YR ∧
     (ns2009_driver_init B XR YR).1.tft_y_res = XR ∧
     (ns2009_driver_init B XR YR).1.rtp_x_offs = -20 ∧
     (ns2009_driver_init B XR YR).1.rtp_y_offs = 5 ∧
     (ns2009_driver_init B XR YR).1.rtp_x_sc = float.div (float.ofInt YR) (float.ofInt 285) ∧
     (ns2009_driver_init B XR YR).1.rtp_y_sc = float.div (float.ofInt XR) (float.ofInt 415) ∧
     (ns2009_driver_init B XR YR).1.read_x = some ns2009_read_fn.__ns2009_read_y ∧
     (ns2009_driver_init B XR YR).1.read_y = some ns2009_read_fn.__ns2009_read_x ∧
     (ns2009_driver_init B XR YR).1.res = ns2009_res_t.NS2009_RESOLUTION_8BIT ∧
     (ns2009_driver_init B XR YR).1.dir = B.NS2009_DIR_SWITCH_XY ||| B.NS2009_DIR_INVERT_Y) ∧
    (∃ sx sy : ℚ,
      (ns2009_driver_init B XR YR).1.rtp_x_sc.toRat = some sx ∧ 0 ≤ sx ∧
      |sx - (YR : ℚ) / 285| ≤ float_err ((YR : ℚ) / 285) ∧
      (ns2009_driver_init B XR YR).1.rtp_y_sc.toRat = some sy ∧ 0 ≤ sy ∧
      |sy - (XR : ℚ) / 415| ≤ float_err ((XR : ℚ) / 415)) := by
  have hmx : XR % 65536 = XR := Nat.mod_eq_of_lt hXR
  have hmy : YR % 65536 = YR := Nat.mod_eq_of_lt hYR
  have hsw : (B.NS2009_DIR_SWITCH_XY ||| B.NS2009_DIR_INVERT_Y) &&& B.NS2009_DIR_SWITCH_XY ≠ 0 := by
    rw [lor_land_left]; exact hS
  have hiy : (B.NS2009_DIR_SWITCH_XY ||| B.NS2009_DIR_INVERT_Y) &&& B.NS2009_DIR_INVERT_Y ≠ 0 := by
    rw [lor_land_right]; exact hY
  have hinit : (ns2009_driver_init B XR YR).1 =
      ns2009_set_dir B (ns2009_probe_baseline B XR YR g_ns2009_data)
        (B.NS2009_DIR_SWITCH_XY ||| B.NS2009_DIR_INVERT_Y) := rfl
  have hbase : (ns2009_probe_baseline B XR YR g_ns2009_data).tft_x_res = XR ∧
     (ns2009_probe_baseline B XR YR g_ns2009_data).tft_y_res = YR ∧
     (ns2009_probe_baseline B XR YR g_ns2009_data).rtp_x_res = 415 ∧
     (ns2009_probe_baseline B XR YR g_ns2009_data).rtp_y_res = 285 ∧
     (ns2009_probe_baseline B XR YR g_ns2009_data).rtp_x_offs = 5 ∧
     (ns2009_probe_baseline B XR YR g_ns2009_data).rtp_y_offs = -20 ∧
     (ns2009_probe_baseline B XR YR g_ns2009_data).rtp_x_sc
       = float.div (float.ofInt XR) (float.ofInt 415) ∧
     (ns2009_probe_baseline B XR YR g_ns2009_data).rtp_y_sc
       = float.div (float.ofInt YR) (float.ofInt 285) ∧
     (ns2009_probe_baseline B XR YR g_ns2009_data).res = ns2009_res_t.NS2009_RESOLUTION_8BIT ∧
     (ns2009_probe_baseline B XR YR g_ns2009_data).invert_x = false ∧
     (ns2009_probe_baseline B XR YR g_ns2009_data).invert_y = false := by
    unfold ns2009_probe_baseline
    simp [hmx, hmy]
  obtain ⟨b1, b2, b3, b4, b5, b6, b7, b8, b9, b10, b11⟩ := hbase
  have hfields : (ns2009_driver_init B XR YR).1.switch_xy = true ∧
     (ns2009_driver_init B XR YR).1.invert_x = true ∧
     (ns2009_driver_init B XR YR).1.invert_y = false ∧
     (ns2009_driver_init B XR YR).1.tft_x_res = YR ∧
     (ns2009_driver_init B XR YR).1.tft_y_res = XR ∧
     (ns2009_driver_init B XR YR).1.rtp_x_offs = -20 ∧
     (ns2009_driver_init B XR YR).1.rtp_y_offs = 5 ∧
     (ns2009_driver_init B XR YR).1.rtp_x_sc = float.div (float.ofInt YR) (float.ofInt 285) ∧
     (ns2009_driver_init B XR YR).1.rtp_y_sc = float.div (float.ofInt XR) (float.ofInt 415) ∧
     (ns2009_driver_init B XR YR).1.read_x = some ns2009_read_fn.__ns2009_read_y ∧
     (ns2009_driver_init B XR YR).1.read_y = some ns2009_read_fn.__ns2009_read_x ∧
     (ns2009_driver_init B XR YR).1.res = ns2009_res_t.NS2009_RESOLUTION_8BIT ∧
     (ns2009_driver_init B XR YR).1.dir
       = B.NS2009_DIR_SWITCH_XY ||| B.NS2009_DIR_INVERT_Y := by
    rw [hinit]
    unfold ns2009_set_dir
    rw [set_dir_swap B _ _ hsw]
    have h5 : ((to_u16 5 : Nat) : Int) = 5 := by decide
    simp [b1, b2, b5, b6, b7, b8, b9, hiy, hX, h5]
  refine ⟨⟨rfl, hinit⟩, ⟨b1, b2, b3, b4, b5, b6, b7, b8, b9, b10, b11⟩, hfields, ?_⟩
  obtain ⟨sx, hsx, hsx0, hsxe⟩ :=
    div_ofInt_accuracy YR 285 (by omega) (by decide) (by decide)
  obtain ⟨sy, hsy, hsy0, hsye⟩ :=
    div_ofInt_accuracy XR 415 (by omega) (by decide) (by decide)
  refine ⟨sx, sy, ?_, hsx0, ?_, ?_, hsy0, ?_⟩
  · rw [hfields.2.2.2.2.2.2.2.1]; exact hsx
  · simpa using hsxe
  · rw [hfields.2.2.2.2.2.2.2.2.1]; exact hsy
  · simpa using hsye

/-- C14, an instance: a 320 x 480 display with the flag bits 1, 2, 4. -/
theorem C14_state_after_driver_init_witness :
    (ns2009_driver_init dir_bits_example 320 480).1.switch_xy = true ∧
    (ns2009_driver_init dir_bits_example 320 480).1.invert_x = true ∧
    (ns2009_driver_init dir_bits_example 320 480).1.invert_y = false ∧
    (ns2009_driver_init dir_bits_example 320 480).1.tft_x_res = 480 ∧
    (ns2009_driver_init dir_bits_example 320 480).1.tft_y_res = 320 ∧
    (ns2009_driver_init dir_bits_example 320 480).1.rtp_x_offs = -20 ∧
    (ns2009_driver_init dir_bits_example 320 480).1.rtp_y_offs = 5 ∧
    (ns2009_driver_init dir_bits_example 320 480).1.rtp_x_sc
      = float.div (float.ofInt (480 : Nat)) (float.ofInt 285) ∧
    (ns2009_driver_init dir_bits_example 320 480).1.rtp_y_sc
      = float.div (float.ofInt (320 : Nat)) (float.ofInt 415) ∧
    (ns2009_driver_init dir_bits_example 320 480).1.read_x
      = some ns2009_read_fn.__ns2009_read_y ∧
    (ns2009_driver_init dir_bits_example 320 480).1.read_y
      = some ns2009_read_fn.__ns2009_read_x ∧
    (ns2009_driver_init dir_bits_example 320 480).1.res
      = ns2009_res_t.NS2009_RESOLUTION_8BIT ∧
    (ns2009_driver_init dir_bits_example 320 480).1.dir
      = dir_bits_example.NS2009_DIR_SWITCH_XY ||| dir_bits_example.NS2009_DIR_INVERT_Y :=
  (C14_state_after_driver_init dir_bits_example 320 480 (by decide) (by decide)
    (by decide) (by decide) (by decide)).2.2.1

/-- The truncating quotient of the normalisation step is the floor of the exact
quotient. -/
theorem norm_quotient_floor (v R bits : Nat) :
    ⌊((v : ℚ) * (R : ℚ)) / (2 : ℚ) ^ bits⌋ = ((v * R / 2 ^ bits : Nat) : Int) := by
  have h : ((v : ℚ) * (R : ℚ)) / (2 : ℚ) ^ bits
      = ((v * R : Nat) : ℚ) / ((2 ^ bits : Nat) : ℚ) := by push_cast; rfl
  rw [h, Rat.floor_natCast_div_natCast]
  push_cast
  rfl

/-- The specification's `base` lies between 0 and the resolution for a byte sample
and a width of at least 8 bits. -/
theorem spec_base_range (v R bits : Nat) (inv : Bool) (hv : v < 256) (hbits : 256 ≤ 2 ^ bits) :
    0 ≤ spec_base v R bits inv ∧ spec_base v R bits inv ≤ (R : Int) := by
  have hle : v * R / 2 ^ bits ≤ R := by
    apply Nat.div_le_of_le_mul
    calc v * R ≤ 256 * R := Nat.mul_le_mul_right _ (by omega)
      _ ≤ 2 ^ bits * R := Nat.mul_le_mul_right _ hbits
  unfold spec_base
  generalize v * R / 2 ^ bits = n at hle ⊢
  cases inv
  · simp only [Bool.false_eq_true, if_false]
    omega
  · simp only [if_true]
    omega

/-- Both sample widths give a divisor of at least 256. -/
theorem res_pow_ge (r : ns2009_res_t) : 256 ≤ 2 ^ r.toNat := by
  cases r <;> simp [ns2009_res_t.toNat]

/-- C15. For every configuration whose display resolutions fit 16 bits (either
sample width) and every raw byte `v`, the value each reader holds before the
offset is added is `floor(v * R / 2^bits)` when the axis is not inverted and
`R - floor(v * R / 2^bits)` when it is; the intermediate product `v * R` stays
below `2^31`, and the value lies in `[0, R]`, so storing it in the 16-bit
coordinate loses nothing. -/
theorem C15_normalization_is_exact_floor (c : ns2009_data) (v : Nat) (hv : v < 256)
    (hRx : c.tft_x_res < 65536) (hRy : c.tft_y_res < 65536) :
    ((c.invert_x = false →
        (read_x_base c v : Int) = ⌊((v : ℚ) * (c.tft_x_res : ℚ)) / (2 : ℚ) ^ c.res.toNat⌋) ∧
     (c.invert_x = true →
        (read_x_base c v : Int)
          = (c.tft_x_res : Int) - ⌊((v : ℚ) * (c.tft_x_res : ℚ)) / (2 : ℚ) ^ c.res.toNat⌋) ∧
     v * c.tft_x_res < 2 ^ 31 ∧
     (read_x_base c v : Int) = spec_base v c.tft_x_res c.res.toNat c.invert_x ∧
     0 ≤ spec_base v c.tft_x_res c.res.toNat c.invert_x ∧
     spec_base v c.tft_x_res c.res.toNat c.invert_x ≤ (c.tft_x_res : Int) ∧
     read_x_base c v < 65536) ∧
    ((c.invert_y = false →
        (read_y_base c v : Int) = ⌊((v : ℚ) * (c.tft_y_res : ℚ)) / (2 : ℚ) ^ c.res.toNat⌋) ∧
     (c.invert_y = true →
        (read_y_base c v : Int)
          = (c.tft_y_res : Int) - ⌊((v : ℚ) * (c.tft_y_res : ℚ)) / (2 : ℚ) ^ c.res.toNat⌋) ∧
     v * c.tft_y_res < 2 ^ 31 ∧
     (read_y_base c v : Int) = spec_base v c.tft_y_res c.res.toNat c.invert_y ∧
     0 ≤ spec_base v c.tft_y_res c.res.toNat c.invert_y ∧
     spec_base v c.tft_y_res c.res.toNat c.invert_y ≤ (c.tft_y_res : Int) ∧
     read_y_base c v < 65536) := by
  have hx := read_x_base_eq c v hv hRx
  have hy := read_y_base_eq c v hv hRy
  have hrx := spec_base_range v c.tft_x_res c.res.toNat c.invert_x hv (res_pow_ge c.res)
  have hry := spec_base_range v c.tft_y_res c.res.toNat c.invert_y hv (res_pow_ge c.res)
  have hpx : v * c.tft_x_res < 2 ^ 31 := by
    calc v * c.tft_x_res ≤ 255 * 65535 := Nat.mul_le_mul (by omega) (by omega)
      _ < 2 ^ 31 := by norm_num
  have hpy : v * c.tft_y_res < 2 ^ 31 := by
    calc v * c.tft_y_res ≤ 255 * 65535 := Nat.mul_le_mul (by omega) (by omega)
      _ < 2 ^ 31 := by norm_num
  refine ⟨⟨?_, ?_, hpx, hx, hrx.1, hrx.2, by omega⟩, ⟨?_, ?_, hpy, hy, hry.1, hry.2, by omega⟩⟩
  · intro hinv
    rw [hx, norm_quotient_floor, hinv]
    simp [spec_base]
  · intro hinv
    rw [hx, norm_quotient_floor, hinv]
    simp [spec_base]
  · intro hinv
    rw [hy, norm_quotient_floor, hinv]
    simp [spec_base]
  · intro hinv
    rw [hy, norm_quotient_floor, hinv]
    simp [spec_base]

/-- C15, an instance: the state left by `ns2009_driver_init` for a 320 x 480
display (X inverted, Y not) and the raw byte 207. -/
theorem C15_normalization_is_exact_floor_witness :
    (read_x_base (ns2009_driver_init dir_bits_example 320 480).1 207 : Int)
      = spec_base 207 (ns2009_driver_init dir_bits_example 320 480).1.tft_x_res
          (ns2009_driver_init dir_bits_example 320 480).1.res.toNat
          (ns2009_driver_init dir_bits_example 320 480).1.invert_x ∧
    (read_y_base (ns2009_driver_init dir_bits_example 320 480).1 207 : Int)
      = spec_base 207 (ns2009_driver_init dir_bits_example 320 480).1.tft_y_res
          (ns2009_driver_init dir_bits_example 320 480).1.res.toNat
          (ns2009_driver_init dir_bits_example 320 480).1.invert_y :=
  ⟨(C15_normalization_is_exact_floor (ns2009_driver_init dir_bits_example 320 480).1 207
      (by decide) (by decide) (by decide)).1.2.2.2.1,
   (C15_normalization_is_exact_floor (ns2009_driver_init dir_bits_example 320 480).1 207
      (by decide) (by decide) (by decide)).2.2.2.2.1⟩

/-- C16. The readers do not clamp: in the state `ns2009_driver_init` leaves for a
320 x 480 display (both resolutions positive, `tft_x_res = 480`) and for the raw
sample 0 on command `0xC0`, `__ns2009_read_x` returns 774, which is not below
`tft_x_res`; so there are a configuration with positive resolutions and a raw
byte for which the returned coordinate lies outside `[0, tft_res)`. -/
theorem C16_no_clamping :
    ∃ (c : ns2009_data) (bus : Nat → Nat) (r : Nat),
      0 < c.tft_x_res ∧ 0 < c.tft_y_res ∧ bus 0xC0 < 256 ∧
      __ns2009_read_x c bus = some r ∧ ¬ (r < c.tft_x_res) ∧
      c = (ns2009_driver_init dir_bits_example 320 480).1 ∧ bus 0xC0 = 0 ∧ r = 774 ∧
      c.tft_x_res = 480 :=
  ⟨(ns2009_driver_init dir_bits_example 320 480).1, fun _ => 0, 774,
    by decide, by decide, by decide, by decide, by decide, rfl, rfl, rfl, by decide⟩

/-- Arithmetic behind the ranges of the pre-offset value. -/
theorem base_range_aux (R q b : Nat) (hq : q < R) :
    ((b : Int) = (q : Int) → b = q ∧ b ≤ R - 1) ∧
    ((b : Int) = (R : Int) - (q : Int) → b = R - q ∧ 1 ≤ b ∧ b ≤ R ∧ b ≠ 0) := by
  omega

/-- The specification's `base` at the 8-bit width. -/
theorem spec_base_8bit (v R : Nat) (inv : Bool) :
    spec_base v R ns2009_res_t.NS2009_RESOLUTION_8BIT.toNat inv
      = if inv then (R : Int) - ((v * R / 256 : Nat) : Int) else ((v * R / 256 : Nat) : Int) := by
  rfl

/-- C18. At the 8-bit width, for every resolution `R` with `0 < R < 65536` and
every raw byte `v`: a non-inverted axis holds `v * R / 256`, which lies in
`[0, R - 1]`; an inverted axis holds `R - v * R / 256`, which lies in `[1, R]`, is
never 0, and is `R` at `v = 0`. -/
theorem C18_pre_offset_range_8bit (c : ns2009_data) (v : Nat) (hv : v < 256)
    (hres : c.res = ns2009_res_t.NS2009_RESOLUTION_8BIT)
    (hRx0 : 0 < c.tft_x_res) (hRx : c.tft_x_res < 65536)
    (hRy0 : 0 < c.tft_y_res) (hRy : c.tft_y_res < 65536) :
    ((c.invert_x = false →
        read_x_base c v = v * c.tft_x_res / 256 ∧ read_x_base c v ≤ c.tft_x_res - 1) ∧
     (c.invert_x = true →
        read_x_base c v = c.tft_x_res - v * c.tft_x_res / 256 ∧
        1 ≤ read_x_base c v ∧ read_x_base c v ≤ c.tft_x_res ∧ read_x_base c v ≠ 0 ∧
        read_x_base c 0 = c.tft_x_res)) ∧
    ((c.invert_y = false →
        read_y_base c v = v * c.tft_y_res / 256 ∧ read_y_base c v ≤ c.tft_y_res - 1) ∧
     (c.invert_y = true →
        read_y_base c v = c.tft_y_res - v * c.tft_y_res / 256 ∧
        1 ≤ read_y_base c v ∧ read_y_base c v ≤ c.tft_y_res ∧ read_y_base c v ≠ 0 ∧
        read_y_base c 0 = c.tft_y_res)) := by
  have hx := read_x_base_eq c v hv hRx
  have hy := read_y_base_eq c v hv hRy
  have hx0 := read_x_base_eq c 0 (by decide) hRx
  have hy0 := read_y_base_eq c 0 (by decide) hRy
  have hqx : v * c.tft_x_res / 256 < c.tft_x_res :=
    Nat.div_lt_of_lt_mul (Nat.mul_lt_mul_of_pos_right hv hRx0)
  have hqy : v * c.tft_y_res / 256 < c.tft_y_res :=
    Nat.div_lt_of_lt_mul (Nat.mul_lt_mul_of_pos_right hv hRy0)
  rw [hres, spec_base_8bit] at hx hy hx0 hy0
  have ax := base_range_aux c.tft_x_res (v * c.tft_x_res / 256) (read_x_base c v) hqx
  have ay := base_range_aux c.tft_y_res (v * c.tft_y_res / 256) (read_y_base c v) hqy
  refine ⟨⟨fun h => ?_, fun h => ?_⟩, ⟨fun h => ?_, fun h => ?_⟩⟩
  · rw [h] at hx
    exact ax.1 hx
  · rw [h] at hx hx0
    obtain ⟨h1, h2, h3, h4⟩ := ax.2 hx
    refine ⟨h1, h2, h3, h4, ?_⟩
    simp only [if_true, Nat.zero_mul, Nat.zero_div, Nat.cast_zero, sub_zero] at hx0
    exact_mod_cast hx0
  · rw [h] at hy
    exact ay.1 hy
  · rw [h] at hy hy0
    obtain ⟨h1, h2, h3, h4⟩ := ay.2 hy
    refine ⟨h1, h2, h3, h4, ?_⟩
    simp only [if_true, Nat.zero_mul, Nat.zero_div, Nat.cast_zero, sub_zero] at hy0
    exact_mod_cast hy0

/-- C18, an instance: the state left by `ns2009_driver_init` for a 320 x 480
display, whose X axis is inverted (`tft_x_res = 480`), and the raw byte 255. -/
theorem C18_pre_offset_range_8bit_witness :
    (ns2009_driver_init dir_bits_example 320 480).1.invert_x = true ∧
    1 ≤ read_x_base (ns2009_driver_init dir_bits_example 320 480).1 255 ∧
    read_x_base (ns2009_driver_init dir_bits_example 320 480).1 0
      = (ns2009_driver_init dir_bits_example 320 480).1.tft_x_res :=
  ⟨by decide,
   ((C18_pre_offset_range_8bit (ns2009_driver_init dir_bits_example 320 480).1 255
      (by decide) (by decide) (by decide) (by decide) (by decide) (by decide)).1.2
      (by decide)).2.1,
   ((C18_pre_offset_range_8bit (ns2009_driver_init dir_bits_example 320 480).1 255
      (by decide) (by decide) (by decide) (by decide) (by decide) (by decide)).1.2
      (by decide)).2.2.2.2⟩

/-- A store into a `u16` is reduction modulo `2^16`. -/
theorem to_u16_eq_emod (x : Int) : (to_u16 x : Int) = x % 65536 := by
  unfold to_u16
  exact Int.toNat_of_nonneg (Int.emod_nonneg x (by decide))

/-- The sum held after `this_x += priv->rtp_x_offs` is the wrapped 16-bit sum of
the specification's `base` and the offset. -/
theorem read_x_offs_eq (c : ns2009_data) (v : Nat) (hv : v < 256) (hR : c.tft_x_res < 65536) :
    (read_x_offs c v : Int)
      = spec_wrapped_sum v c.tft_x_res c.res.toNat c.invert_x c.rtp_x_offs := by
  unfold read_x_offs spec_wrapped_sum
  rw [to_u16_eq_emod, read_x_base_eq c v hv hR]

/-- The sum held after `this_y += priv->rtp_y_offs` is the wrapped 16-bit sum of
the specification's `base` and the offset. -/
theorem read_y_offs_eq (c : ns2009_data) (v : Nat) (hv : v < 256) (hR : c.tft_y_res < 65536) :
    (read_y_offs c v : Int)
      = spec_wrapped_sum v c.tft_y_res c.res.toNat c.invert_y c.rtp_y_offs := by
  unfold read_y_offs spec_wrapped_sum
  rw [to_u16_eq_emod, read_y_base_eq c v hv hR]

/-- A value within `ε` of `p` has the floor of `p` when `p` is at least `ε` away
from the two integers around it. -/
theorem floor_stable (p q ε : ℚ) (h : |q - p| ≤ ε) (hlo : (⌊p⌋ : ℚ) + ε ≤ p)
    (hhi : p + ε < (⌊p⌋ : ℚ) + 1) : ⌊q⌋ = ⌊p⌋ := by
  rw [Int.floor_eq_iff]
  obtain ⟨h1, h2⟩ := abs_le.mp h
  constructor <;> linarith

/-- The scaling step on a wrapped 16-bit sum `x`: for a finite non-negative scale
and an exact product of at most 65535, the stored result is the `float` product
truncated, the `float` product is the exact product up to binary32 rounding, and
the result is the floor of the exact product whenever that product keeps the
rounding bound away from the integers around it. -/
theorem scale_truncates_wrapped (n : Nat) (hn : n < 65536) (S : float) (s : ℚ)
    (hS : S.toRat = some s) (hs0 : 0 ≤ s) (hp : (n : ℚ) * s ≤ 65535) :
    ∃ q : ℚ, (float.mul (float.ofInt (n : Int)) S).toRat = some q ∧
      float.toU16 (float.mul (float.ofInt (n : Int)) S) = some ⌊q⌋.toNat ∧
      |q - (n : ℚ) * s| ≤ float_err ((n : ℚ) * s) ∧
      ((⌊(n : ℚ) * s⌋ : ℚ) + float_err ((n : ℚ) * s) ≤ (n : ℚ) * s →
        (n : ℚ) * s + float_err ((n : ℚ) * s) < (⌊(n : ℚ) * s⌋ : ℚ) + 1 →
        float.toU16 (float.mul (float.ofInt (n : Int)) S) = some ⌊(n : ℚ) * s⌋.toNat) := by
  have hn' : n < 2 ^ 24 := by omega
  obtain ⟨q, hq, hq0, hq1, herr⟩ := mul_ofInt_in_range n hn' S s hS hs0 hp
  have hres := toU16_of_toRat _ q hq hq0 hq1
  refine ⟨q, hq, hres, herr, fun hlo hhi => ?_⟩
  rw [hres, floor_stable ((n : ℚ) * s) q _ herr hlo hhi]

/-- C17 (as amended). For every configuration whose resolution fits 16 bits and
every raw byte, with `W = (base + O) mod 2^16` the wrapped sum of the normalised
(possibly inverted) value and the signed offset, and `s` the value of the stored
scale, finite and non-negative with `W * s ≤ 65535`: the reader holds `W` after
the offset (a negative `base + O` has become `base + O + 65536`) and returns the
`float` product of `W` and the scale truncated toward zero, not rounded to
nearest. That product is `W * s` up to binary32 rounding, so the result is
`floor(W * s)` whenever `W * s` keeps the rounding bound away from the two
integers around it. Stated for `__ns2009_read_x` and for `__ns2009_read_y`. -/
theorem C17_wrapped_sum_then_truncated_float_product (c : ns2009_data) (bus : Nat → Nat) :
    (∀ s : ℚ, c.tft_x_res < 65536 → c.rtp_x_sc.toRat = some s → 0 ≤ s →
      ((spec_wrapped_sum (bus 0xC0 % 256) c.tft_x_res c.res.toNat c.invert_x c.rtp_x_offs
          : Int) : ℚ) * s ≤ 65535 →
      (read_x_offs c (bus 0xC0 % 256) : Int)
        = spec_wrapped_sum (bus 0xC0 % 256) c.tft_x_res c.res.toNat c.invert_x c.rtp_x_offs ∧
      ∃ q : ℚ,
        (float.mul
          (float.ofInt
            (spec_wrapped_sum (bus 0xC0 % 256) c.tft_x_res c.res.toNat c.invert_x c.rtp_x_offs))
          c.rtp_x_sc).toRat = some q ∧
        __ns2009_read_x c bus = some ⌊q⌋.toNat ∧
        |q - ((spec_wrapped_sum (bus 0xC0 % 256) c.tft_x_res c.res.toNat c.invert_x
                c.rtp_x_offs : Int) : ℚ) * s|
          ≤ float_err (((spec_wrapped_sum (bus 0xC0 % 256) c.tft_x_res c.res.toNat c.invert_x
                c.rtp_x_offs : Int) : ℚ) * s) ∧
        ((⌊((spec_wrapped_sum (bus 0xC0 % 256) c.tft_x_res c.res.toNat c.invert_x
                c.rtp_x_offs : Int) : ℚ) * s⌋ : ℚ)
            + float_err (((spec_wrapped_sum (bus 0xC0 % 256) c.tft_x_res c.res.toNat c.invert_x
                c.rtp_x_offs : Int) : ℚ) * s)
            ≤ ((spec_wrapped_sum (bus 0xC0 % 256) c.tft_x_res c.res.toNat c.invert_x
                c.rtp_x_offs : Int) : ℚ) * s →
          ((spec_wrapped_sum (bus 0xC0 % 256) c.tft_x_res c.res.toNat c.invert_x
                c.rtp_x_offs : Int) : ℚ) * s
            + float_err (((spec_wrapped_sum (bus 0xC0 % 256) c.tft_x_res c.res.toNat c.invert_x
                c.rtp_x_offs : Int) : ℚ) * s)
            < (⌊((spec_wrapped_sum (bus 0xC0 % 256) c.tft_x_res c.res.toNat c.invert_x
                c.rtp_x_offs : Int) : ℚ) * s⌋ : ℚ) + 1 →
          __ns2009_read_x c bus
            = some ⌊((spec_wrapped_sum (bus 0xC0 % 256) c.tft_x_res c.res.toNat c.invert_x
                c.rtp_x_offs : Int) : ℚ) * s⌋.toNat)) ∧
    (∀ s : ℚ, c.tft_y_res < 65536 → c.rtp_y_sc.toRat = some s → 0 ≤ s →
      ((spec_wrapped_sum (bus 0xD0 % 256) c.tft_y_res c.res.toNat c.invert_y c.rtp_y_offs
          : Int) : ℚ) * s ≤ 65535 →
      (read_y_offs c (bus 0xD0 % 256) : Int)
        = spec_wrapped_sum (bus 0xD0 % 256) c.tft_y_res c.res.toNat c.invert_y c.rtp_y_offs ∧
      ∃ q : ℚ,
        (float.mul
          (float.ofInt
            (spec_wrapped_sum (bus 0xD0 % 256) c.tft_y_res c.res.toNat c.invert_y c.rtp_y_offs))
          c.rtp_y_sc).toRat = some q ∧
        __ns2009_read_y c bus = some ⌊q⌋.toNat ∧
        |q - ((spec_wrapped_sum (bus 0xD0 % 256) c.tft_y_res c.res.toNat c.invert_y
                c.rtp_y_offs : Int) : ℚ) * s|
          ≤ float_err (((spec_wrapped_sum (bus 0xD0 % 256) c.tft_y_res c.res.toNat c.invert_y
                c.rtp_y_offs : Int) : ℚ) * s) ∧
        ((⌊((spec_wrapped_sum (bus 0xD0 % 256) c.tft_y_res c.res.toNat c.invert_y
                c.rtp_y_offs : Int) : ℚ) * s⌋ : ℚ)
            + float_err (((spec_wrapped_sum (bus 0xD0 % 256) c.tft_y_res c.res.toNat c.invert_y
                c.rtp_y_offs : Int) : ℚ) * s)
            ≤ ((spec_wrapped_sum (bus 0xD0 % 256) c.tft_y_res c.res.toNat c.invert_y
                c.rtp_y_offs : Int) : ℚ) * s →
          ((spec_wrapped_sum (bus 0xD0 % 256) c.tft_y_res c.res.toNat c.invert_y
                c.rtp_y_offs : Int) : ℚ) * s
            + float_err (((spec_wrapped_sum (bus 0xD0 % 256) c.tft_y_res c.res.toNat c.invert_y
                c.rtp_y_offs : Int) : ℚ) * s)
            < (⌊((spec_wrapped_sum (bus 0xD0 % 256) c.tft_y_res c.res.toNat c.invert_y
                c.rtp_y_offs : Int) : ℚ) * s⌋ : ℚ) + 1 →
          __ns2009_read_y c bus
            = some ⌊((spec_wrapped_sum (bus 0xD0 % 256) c.tft_y_res c.res.toNat c.invert_y
                c.rtp_y_offs : Int) : ℚ) * s⌋.toNat)) := by
  constructor
  · intro s hR hS hs0 hp
    have hW := read_x_offs_eq c (bus 0xC0 % 256) (Nat.mod_lt _ (by decide)) hR
    have hlt : read_x_offs c (bus 0xC0 % 256) < 65536 := by
      have := (to_u16_range ((read_x_base c (bus 0xC0 % 256) : Int) + c.rtp_x_offs)).2
      unfold read_x_offs
      omega
    rw [← hW] at hp ⊢
    simp only [Int.cast_natCast] at hp ⊢
    refine ⟨trivial, ?_⟩
    have hrd : __ns2009_read_x c bus
        = float.toU16 (float.mul (float.ofInt (read_x_offs c (bus 0xC0 % 256) : Int))
            c.rtp_x_sc) := rfl
    rw [hrd]
    exact scale_truncates_wrapped _ hlt c.rtp_x_sc s hS hs0 hp
  · intro s hR hS hs0 hp
    have hW := read_y_offs_eq c (bus 0xD0 % 256) (Nat.mod_lt _ (by decide)) hR
    have hlt : read_y_offs c (bus 0xD0 % 256) < 65536 := by
      have := (to_u16_range ((read_y_base c (bus 0xD0 % 256) : Int) + c.rtp_y_offs)).2
      unfold read_y_offs
      omega
    rw [← hW] at hp ⊢
    simp only [Int.cast_natCast] at hp ⊢
    refine ⟨trivial, ?_⟩
    have hrd : __ns2009_read_y c bus
        = float.toU16 (float.mul (float.ofInt (read_y_offs c (bus 0xD0 % 256) : Int))
            c.rtp_y_sc) := rfl
    rw [hrd]
    exact scale_truncates_wrapped _ hlt c.rtp_y_sc s hS hs0 hp

/-- C17, an instance with a wrapped sum: the 320 x 480 baseline with
`rtp_x_offs = -20` and the raw sample 0. Then `base + O = -20` is held as 65516,
and the X reader returns `floor(65516 * s) = 50518` for the stored scale
`s = 1617081/2097152`. -/
theorem C17_wrapped_sum_then_truncated_float_product_witness :
    spec_wrapped_sum 0 320 8 false (-20) = 65516 ∧
    __ns2009_read_x { baseline_320x480 with rtp_x_offs := -20 } (fun _ => 0) = some 50518 := by
  have hW : spec_wrapped_sum ((fun _ => 0) 0xC0 % 256)
      ({ baseline_320x480 with rtp_x_offs := -20 } : ns2009_data).tft_x_res
      ({ baseline_320x480 with rtp_x_offs := -20 } : ns2009_data).res.toNat
      ({ baseline_320x480 with rtp_x_offs := -20 } : ns2009_data).invert_x
      ({ baseline_320x480 with rtp_x_offs := -20 } : ns2009_data).rtp_x_offs = 65516 := by
    decide
  have hS : ({ baseline_320x480 with rtp_x_offs := -20 } : ns2009_data).rtp_x_sc.toRat
      = some (1617081 / 2097152) := by
    rw [show ({ baseline_320x480 with rtp_x_offs := -20 } : ns2009_data).rtp_x_sc
          = float.finite false 12936648 (-24) from by decide]
    norm_num [float.toRat]
  have hfloor : ⌊((65516 : Int) : ℚ) * (1617081 / 2097152)⌋ = 50518 := by
    rw [Int.floor_eq_iff]
    norm_num
  have herr : float_err (((65516 : Int) : ℚ) * (1617081 / 2097152)) ≤ 1 / 100 := by
    unfold float_err
    apply max_le <;> norm_num
  obtain ⟨_, q, _, _, _, hfl⟩ :=
    (C17_wrapped_sum_then_truncated_float_product
      { baseline_320x480 with rtp_x_offs := -20 } (fun _ => 0)).1
      (1617081 / 2097152) (by decide) hS (by norm_num) (by rw [hW]; norm_num)
  rw [hW, hfloor] at hfl
  refine ⟨by decide, ?_⟩
  have h := hfl (by norm_num at herr ⊢; linarith) (by norm_num at herr ⊢; linarith)
  simpa using h

/-- C17 as stated fails, because the product is rounded to `float` before it is
truncated. With the scale taken as the exact ratio `320/415`: on the 320 x 480
baseline the raw sample 63 gives `(base + O) mod 65536 = 83` and
`floor(83 * 320/415) = 64`, while `__ns2009_read_x` returns 63. With the scale
taken as the exact value `1617081/2097152` of the stored `float`: with
`rtp_x_offs = 100` the raw sample 252 gives 415 and `floor(415 * s) = 319`,
while `__ns2009_read_x` returns 320. -/
theorem C17_counterexample :
    (__ns2009_read_x baseline_320x480 (fun _ => 63) = some 63 ∧
     spec_wrapped_sum 63 baseline_320x480.tft_x_res baseline_320x480.res.toNat
       baseline_320x480.invert_x baseline_320x480.rtp_x_offs = 83 ∧
     ⌊((83 : Int) : ℚ) * (320 / 415)⌋ = 64) ∧
    (__ns2009_read_x { baseline_320x480 with rtp_x_offs := 100 } (fun _ => 252) = some 320 ∧
     ({ baseline_320x480 with rtp_x_offs := 100 } : ns2009_data).rtp_x_sc.toRat
       = some (1617081 / 2097152) ∧
     spec_wrapped_sum 252 baseline_320x480.tft_x_res baseline_320x480.res.toNat
       baseline_320x480.invert_x 100 = 415 ∧
     ⌊((415 : Int) : ℚ) * (1617081 / 2097152)⌋ = 319) := by
  refine ⟨⟨by decide, by decide, ?_⟩, ⟨by decide, ?_, by decide, ?_⟩⟩
  · rw [Int.floor_eq_iff]
    norm_num
  · rw [show ({ baseline_320x480 with rtp_x_offs := 100 } : ns2009_data).rtp_x_sc
          = float.finite false 12936648 (-24) from by decide]
    norm_num [float.toRat]
  · rw [Int.floor_eq_iff]
    norm_num
